import Mathlib

/-!
Verification of the `drizzle-uncache` query-result cache adapter.

The development shallowly embeds the adapter's pure key codec
(`src/utils.ts`), its data model (`src/types.ts`) and the storage-level
operations of `UnstorageCache` (`src/unstorage-cache.ts`) as executable
Lean functions, and proves the specified properties about them.

JavaScript strings are modelled as Lean `String`; the platform builtins
`encodeURIComponent` / `decodeURIComponent` are modelled per ECMA-262
(percent-encoding of the UTF-8 bytes of every character outside the
unreserved set; strict UTF-8 decoding, with `none` standing for a thrown
`URIError`).  Millisecond timestamps and TTL values are modelled as `Int`.
The pluggable `unstorage` backend is modelled as an association list from
string keys to stored values inside this cache's key namespace.
-/

namespace DrizzleUncache

/-! ## Key codec: model of `encodeURIComponent` / `decodeURIComponent` -/

/-- Characters that `encodeURIComponent` leaves unescaped
(`A-Z a-z 0-9 - _ . ! ~ * ' ( )`, per ECMA-262). -/
def isUnreserved (c : Char) : Bool :=
  ('A' ≤ c && c ≤ 'Z') || ('a' ≤ c && c ≤ 'z') || ('0' ≤ c && c ≤ '9') ||
  c == '-' || c == '_' || c == '.' || c == '!' || c == '~' || c == '*' ||
  c == '\'' || c == '(' || c == ')'

/-- Uppercase hexadecimal digit for a value below 16. -/
def hexDigit (n : Nat) : Char :=
  if n < 10 then Char.ofNat (48 + n) else Char.ofNat (55 + n)

/-- Value of a hexadecimal digit character (either case), `none` otherwise. -/
def hexVal (c : Char) : Option Nat :=
  if '0' ≤ c && c ≤ '9' then some (c.toNat - 48)
  else if 'A' ≤ c && c ≤ 'F' then some (c.toNat - 55)
  else if 'a' ≤ c && c ≤ 'f' then some (c.toNat - 87)
  else none

/-- UTF-8 byte sequence of a Unicode code point. -/
def utf8Bytes (n : Nat) : List Nat :=
  if n < 0x80 then [n]
  else if n < 0x800 then [0xC0 + n / 64, 0x80 + n % 64]
  else if n < 0x10000 then [0xE0 + n / 4096, 0x80 + n / 64 % 64, 0x80 + n % 64]
  else [0xF0 + n / 262144, 0x80 + n / 4096 % 64, 0x80 + n / 64 % 64, 0x80 + n % 64]

/-- Percent-escape of one byte: `%XY` with uppercase hex digits. -/
def pctByte (b : Nat) : List Char := ['%', hexDigit (b / 16), hexDigit (b % 16)]

/-- `encodeURIComponent` on a single character: unreserved characters pass
through, every other character becomes the percent-escapes of its UTF-8
bytes. -/
def encodeChar (c : Char) : List Char :=
  if isUnreserved c then [c] else (utf8Bytes c.toNat).flatMap pctByte

/-- `encodeURIComponent` on a character list. -/
def encodeList (l : List Char) : List Char := l.flatMap encodeChar

/-- Model of the JavaScript builtin `encodeURIComponent`. -/
def encodeURIComponent (s : String) : String := ⟨encodeList s.data⟩

/-- `encode` from `src/utils.ts`: `encodeURIComponent(value)`. -/
def encode (value : String) : String := encodeURIComponent value

/-- Token stream produced by percent-unescaping: a decoded escape byte or a
character that appeared literally. -/
inductive Tok where
  | byte (b : Nat)
  | chr (c : Char)
deriving DecidableEq

/-- First phase of `decodeURIComponent`: replace every `%XY` escape by its
byte.  `none` models a thrown `URIError` (truncated or non-hex escape). -/
def unescape : List Char → Option (List Tok)
  | [] => some []
  | c :: rest =>
    if c = '%' then
      match rest with
      | h1 :: h2 :: rest2 =>
        match hexVal h1, hexVal h2 with
        | some a, some b => (unescape rest2).map (fun ts => Tok.byte (a * 16 + b) :: ts)
        | _, _ => none
      | _ => none
    else (unescape rest).map (fun ts => Tok.chr c :: ts)

/-- UTF-8 continuation byte test. -/
def isCont (b : Nat) : Bool := 0x80 ≤ b && b < 0xC0

/-- Strict UTF-8 decoding of the escape bytes as a state machine over the
token stream; literal characters pass through.  While inside a multi-byte
sequence, `need` continuation bytes are still required, `acc` holds the
accumulated code-point bits and `mn` the smallest code point the sequence
is allowed to produce (so overlong forms are rejected); completed code
points must also avoid the surrogate range and `0x110000`, as ECMA-262's
strict UTF-8 decoding requires. -/
def asmAux : List Tok → Nat → Nat → Nat → Option (List Char)
  | [], 0, _, _ => some []
  | [], _ + 1, _, _ => none
  | Tok.chr c :: rest, 0, _, _ => (asmAux rest 0 0 0).map (fun l => c :: l)
  | Tok.chr _ :: _, _ + 1, _, _ => none
  | Tok.byte b :: rest, 0, _, _ =>
    if b < 0x80 then (asmAux rest 0 0 0).map (fun l => Char.ofNat b :: l)
    else if b < 0xC0 then none
    else if b < 0xE0 then asmAux rest 1 (b - 0xC0) 0x80
    else if b < 0xF0 then asmAux rest 2 (b - 0xE0) 0x800
    else if b < 0xF8 then asmAux rest 3 (b - 0xF0) 0x10000
    else none
  | Tok.byte b :: rest, 1, acc, mn =>
    if isCont b then
      let n := acc * 64 + (b - 0x80)
      if mn ≤ n ∧ (n < 0xD800 ∨ 0xE000 ≤ n) ∧ n < 0x110000 then
        (asmAux rest 0 0 0).map (fun l => Char.ofNat n :: l)
      else none
    else none
  | Tok.byte b :: rest, need + 2, acc, mn =>
    if isCont b then asmAux rest (need + 1) (acc * 64 + (b - 0x80)) mn else none

/-- Second phase of `decodeURIComponent`: strict UTF-8 decoding of the
escape bytes; `none` models a thrown `URIError`. -/
def utf8Assemble (toks : List Tok) : Option (List Char) := asmAux toks 0 0 0

/-- Model of the JavaScript builtin `decodeURIComponent`; `none` models a
thrown `URIError`. -/
def decodeURIComponent (s : String) : Option String :=
  (unescape s.data).bind (fun ts => (utf8Assemble ts).map (fun l => ⟨l⟩))

example : encode "a" = "a" := by decide
example : encode ":" = "%3A" := by decide
example : decodeURIComponent (encode "a:b") = some "a:b" := by decide

/-! ## Utility functions from `src/utils.ts` -/

/-- Cells of a character list split at a separator character, in the style
of JavaScript `String.prototype.split` with a one-character separator: the
result always has one more cell than there are separators. -/
def splitCells (sep : Char) : List Char → List (List Char)
  | [] => [[]]
  | c :: rest =>
    if c = sep then [] :: splitCells sep rest
    else
      match splitCells sep rest with
      | [] => [[c]]
      | cell :: cells => (c :: cell) :: cells

/-- JavaScript `key.split(":")`. -/
def splitColon (s : String) : List String := (splitCells ':' s.data).map (fun l => ⟨l⟩)

/-- JavaScript `tablesKey.split(",")`. -/
def splitComma (s : String) : List String := (splitCells ',' s.data).map (fun l => ⟨l⟩)

/-- JavaScript `Array.prototype.join(",")`. -/
def joinComma : List String → String
  | [] => ""
  | [x] => x
  | x :: xs => x ++ "," ++ joinComma xs

/-- Lexicographic comparison of character lists by code point, the order
JavaScript's default `Array.prototype.sort()` comparator induces on the
ASCII strings produced by `encode` (UTF-16 code-unit order and code-point
order coincide there). -/
def lexLe : List Char → List Char → Bool
  | [], _ => true
  | _ :: _, [] => false
  | a :: as, b :: bs =>
    if a.toNat < b.toNat then true
    else if b.toNat < a.toNat then false
    else lexLe as bs

/-- String comparison used by `Array.prototype.sort()`. -/
def strLe (a b : String) : Bool := lexLe a.data b.data

/-- JavaScript `Array.prototype.sort()` on an array of strings: sort into
nondecreasing `strLe` order. -/
def sortStrings (l : List String) : List String :=
  List.insertionSort (fun a b : String => strLe a b = true) l

/-- Drizzle's `CacheConfig` restricted to the fields this adapter reads:
the four TTL fields and the `keepTtl` flag; `none` models an absent field. -/
structure CacheConfig where
  ex : Option Int := none
  px : Option Int := none
  exat : Option Int := none
  pxat : Option Int := none
  keepTtl : Option Bool := none
deriving DecidableEq

/-- `pickConfigWithTtl` from `src/utils.ts`: the config itself when any of
its four TTL fields is present, otherwise `undefined`. -/
def pickConfigWithTtl (config : Option CacheConfig) : Option CacheConfig :=
  match config with
  | none => none
  | some cfg =>
    if cfg.ex.isSome || cfg.px.isSome || cfg.exat.isSome || cfg.pxat.isSome then some cfg
    else none

/-- A mutation notification field: absent, a single item, or a list
(`MutationOption` accepts both shapes).  Drizzle `Table` objects are
modelled by their table-name string, which is what `normalizeTables`
extracts from them. -/
def MutParam := Option (Sum String (List String))

/-- `normalizeTables` from `src/utils.ts` on the string model: absent
becomes `[]`, a single item becomes a one-element list. -/
def normalizeTables (tables : MutParam) : List String :=
  match tables with
  | none => []
  | some (Sum.inl t) => [t]
  | some (Sum.inr l) => l

/-- `normalizeTags` from `src/utils.ts`: absent becomes `[]`, a single tag
becomes a one-element list, each element is stringified (identity on
strings). -/
def normalizeTags (tags : MutParam) : List String :=
  match tags with
  | none => []
  | some (Sum.inl t) => [t]
  | some (Sum.inr l) => l

/-- First-occurrence deduplication, the order `Array.from(new Set(xs))`
produces in JavaScript. -/
def dedupFirstAux [DecidableEq α] : List α → List α → List α
  | _, [] => []
  | seen, a :: l =>
    if a ∈ seen then dedupFirstAux seen l else a :: dedupFirstAux (a :: seen) l

/-- JavaScript `Array.from(new Set(xs))`. -/
def dedupFirst [DecidableEq α] (l : List α) : List α := dedupFirstAux [] l

/-- `makeTablesKey` from `src/utils.ts`: empty input gives `""`, otherwise
the encoded table names sorted lexicographically and joined with `","`. -/
def makeTablesKey (tables : List String) : String :=
  if tables = [] then "" else joinComma (sortStrings (tables.map encode))

/-- `decodeTablesKey` from `src/utils.ts`: falsy input gives `[]`,
otherwise split at `","`, drop empty parts and decode each part
(`none` models a `URIError` thrown by `decodeURIComponent`). -/
def decodeTablesKey (tablesKey : Option String) : Option (List String) :=
  match tablesKey with
  | none => some []
  | some tk =>
    if tk = "" then some []
    else ((splitComma tk).filter (fun p => p ≠ "")).mapM decodeURIComponent

/-- Result of `parseIndexKey` from `src/utils.ts`. -/
structure ParsedIndexKey where
  tableEnc : String
  tablesKey : String
  isTag : Bool
  keyEnc : String
deriving DecidableEq

/-- `parseIndexKey` from `src/utils.ts`: strict five-part parse of an index
record key; wrong part count, wrong namespace, an empty table / digest /
fingerprint part or an unknown kind tag yield `undefined`. -/
def parseIndexKey (key : String) : Option ParsedIndexKey :=
  match splitColon key with
  | [p0, tableEnc, tablesKey, kind, keyEnc] =>
    if p0 ≠ "__CTS__" then none
    else if tableEnc = "" then none
    else if tablesKey = "" then none
    else if keyEnc = "" then none
    else if kind = "q" then some ⟨tableEnc, tablesKey, false, keyEnc⟩
    else if kind = "t" then some ⟨tableEnc, tablesKey, true, keyEnc⟩
    else none
  | _ => none

example : makeTablesKey ["b", "a"] = "a,b" := by decide
example : makeTablesKey ["a", "a"] = "a,a" := by decide
example : parseIndexKey "__CTS__:a:a,b:q:k" = some ⟨"a", "a,b", false, "k"⟩ := by decide
example : parseIndexKey "__CTS__:a:a,b:x:k" = none := by decide
example : decodeTablesKey (some "a,b") = some ["a", "b"] := by decide
example : dedupFirst ["x", "y", "x"] = ["x", "y"] := by decide

/-! ## Data model (`src/types.ts`) and storage backend model -/

/-- `CacheEntry` from `src/types.ts`; the payload type `V` is opaque to the
cache layer.  `tables` is present exactly when the entry participates in
automatic invalidation. -/
structure CacheEntry (V : Type) where
  value : V
  expiresAt : Option Int := none
  tables : Option (List String) := none
deriving DecidableEq

/-- A value stored in the backend: a cache entry at a value key, a string
at a tag-map key, or a number at an index key. -/
inductive StVal (V : Type) where
  | entry (e : CacheEntry V)
  | str (s : String)
  | num (n : Int)
deriving DecidableEq

/-- The `unstorage` backend inside this cache's key namespace, modelled as
an association list from keys to stored values (most recent write first). -/
abbrev Storage (V : Type) := List (String × StVal V)

/-- Backend `getItem`. -/
def getItem (s : Storage V) (k : String) : Option (StVal V) :=
  (s.find? (fun kv => kv.1 == k)).map (fun kv => kv.2)

/-- Backend `removeItem` (idempotent delete). -/
def removeItem (s : Storage V) (k : String) : Storage V :=
  s.filter (fun kv => kv.1 != k)

/-- Backend `setItem` (replace any previous value at the key). -/
def setItem (s : Storage V) (k : String) (v : StVal V) : Storage V :=
  (k, v) :: removeItem s k

/-- Backend `getKeys(prefix)`: every stored key starting with the prefix. -/
def getKeys (s : Storage V) (pfx : String) : List String :=
  (s.map (fun kv => kv.1)).filter (fun k => pfx.data.isPrefixOf k.data)

/-- The adapter's `setMany`: a batch of writes, one `setItem` per pair (the
TTL hint only tunes the backend's native expiry, never the stored state,
so the model omits it). -/
def setMany (s : Storage V) (items : List (String × StVal V)) : Storage V :=
  items.foldl (fun st it => setItem st it.1 it.2) s

/-- Removal of a list of keys (`Promise.all` of `removeItem` calls). -/
def removeAll (s : Storage V) (ks : List String) : Storage V :=
  ks.foldl removeItem s

/-- The stored value read back as a `CacheEntry` (the adapter's
`getItem<CacheEntry>` cast). -/
def asEntry : Option (StVal V) → Option (CacheEntry V)
  | some (StVal.entry e) => some e
  | _ => none

/-- The stored value read back as a string (the adapter's
`getItem<string>` cast). -/
def asStr : Option (StVal V) → Option String
  | some (StVal.str s) => some s
  | _ => none

/-! ## `UnstorageCache` key derivation and expiry engine
(`src/unstorage-cache.ts`) -/

/-- `valueKey`: `__NAI__:{kind}:{keyEnc}` without auto-invalidation,
`__CT__:{tablesKey ?? ""}:{kind}:{keyEnc}` with it. -/
def valueKey (autoInvalidate isTag : Bool) (keyEnc : String)
    (tablesKey : Option String) : String :=
  let kind := if isTag then "t" else "q"
  if autoInvalidate then "__CT__" ++ ":" ++ tablesKey.getD "" ++ ":" ++ kind ++ ":" ++ keyEnc
  else "__NAI__" ++ ":" ++ kind ++ ":" ++ keyEnc

/-- `indexKey`: `__CTS__:{encode table}:{tablesKey}:{kind}:{keyEnc}`. -/
def indexKey (table tablesKey : String) (isTag : Bool) (keyEnc : String) : String :=
  "__CTS__" ++ ":" ++ encode table ++ ":" ++ tablesKey ++ ":" ++
    (if isTag then "t" else "q") ++ ":" ++ keyEnc

/-- `tagMapKey`: `__tagsMap__:{tagEnc}`. -/
def tagMapKey (tagEnc : String) : String := "__tagsMap__" ++ ":" ++ tagEnc

/-- The prefix enumerated for one table during `invalidateTables`. -/
def indexTablePfx (table : String) : String := "__CTS__" ++ ":" ++ encode table ++ ":"

/-- `isExpired`: true iff `expiresAt` is present and `<= now`. -/
def isExpired (e : CacheEntry V) (now : Int) : Bool :=
  match e.expiresAt with
  | some t => t ≤ now
  | none => false

/-- The truthiness guard of the `keepTtl` branch of `toExpiresAt`:
`config?.keepTtl && existingExpiresAt && existingExpiresAt > now`. -/
def keepTtlGuard (now : Int) (config : Option CacheConfig)
    (existingExpiresAt : Option Int) : Bool :=
  (config.bind CacheConfig.keepTtl == some true) &&
    (match existingExpiresAt with
     | some e => e != 0 && decide (now < e)
     | none => false)

/-- The tail of `toExpiresAt` once a TTL source config is selected: first
field present in the order `px`, `ex`, `pxat`, `exat` wins; the final
`now + 1000` fallthrough is unreachable for sources produced by
`pickConfigWithTtl`. -/
def ttlFromSource (now : Int) (source : CacheConfig) : Int :=
  match source.px with
  | some px => now + px
  | none =>
    match source.ex with
    | some ex => now + ex * 1000
    | none =>
      match source.pxat with
      | some pxat => pxat
      | none =>
        match source.exat with
        | some exat => exat * 1000
        | none => now + 1000

/-- `toExpiresAt`: keep a still-future existing expiry under `keepTtl`,
else resolve the first TTL field of the request config (falling back to
the default config) in the order `px`, `ex`, `pxat`, `exat`; with no TTL
field anywhere, `now + 1000`. -/
def toExpiresAt (now : Int) (config defaultConfig : Option CacheConfig)
    (existingExpiresAt : Option Int) : Option Int :=
  if keepTtlGuard now config existingExpiresAt then existingExpiresAt
  else
    match (pickConfigWithTtl config).orElse (fun _ => pickConfigWithTtl defaultConfig) with
    | none => some (now + 1000)
    | some source => some (ttlFromSource now source)

/-! ## `UnstorageCache` operations -/

/-- The auto-invalidation flag the facade derives from a table list:
`tables.length > 0`. -/
def autoFlag (tables : List String) : Bool := !tables.isEmpty

/-- Parameter record of the private `dropEntry` helper. -/
structure DropParams (V : Type) where
  autoInvalidate : Bool
  isTag : Bool
  keyEnc : String
  tablesKey : Option String := none
  entry : Option (CacheEntry V) := none
  fallbackTables : Option (List String) := none
  removeTagMap : Bool := false

/-- The table list `dropEntry` works from:
`entry?.tables ?? fallbackTables ?? (tablesKey ? decodeTablesKey(tablesKey) : [])`;
`none` models a `URIError` from `decodeTablesKey`. -/
def dropEntryTables (p : DropParams V) : Option (List String) :=
  match p.entry.bind CacheEntry.tables with
  | some ts => some ts
  | none =>
    match p.fallbackTables with
    | some ts => some ts
    | none =>
      match p.tablesKey with
      | some tk => if tk ≠ "" then decodeTablesKey (some tk) else some []
      | none => some []

/-- `dropEntry`: remove the entry's value record, optionally its tag-map
record, and (when auto-invalidation applies) one index record per
dependent table. -/
def dropEntry (p : DropParams V) (s : Storage V) : Option (Storage V) :=
  match dropEntryTables p with
  | none => none
  | some tables =>
    let resolvedTablesKey : Option String :=
      if p.autoInvalidate then some (p.tablesKey.getD (makeTablesKey tables)) else none
    let s1 := removeItem s (valueKey p.autoInvalidate p.isTag p.keyEnc resolvedTablesKey)
    let s2 := if p.isTag && p.removeTagMap then removeItem s1 (tagMapKey p.keyEnc) else s1
    if p.autoInvalidate = false ∨ tables = [] ∨ resolvedTablesKey.getD "" = "" then some s2
    else
      some (tables.foldl
        (fun st table => removeItem st (indexKey table (resolvedTablesKey.getD "") p.isTag p.keyEnc))
        s2)

/-- `put`: derive the storage key, resolve the expiry (reading the existing
entry first only under `keepTtl`), clean up instead of writing when the
resolved expiry is not in the future, otherwise write the entry plus its
index records and/or tag mapping as one batch.  The outer `Option` models
a thrown `URIError`. -/
def put (s : Storage V) (key : String) (response : V) (tables : List String)
    (isTag : Bool) (config : Option CacheConfig) (defaultConfig : Option CacheConfig)
    (now : Int) : Option (Storage V) :=
  let autoInvalidate := autoFlag tables
  let keyEnc := encode key
  let tablesKey : Option String := if autoInvalidate then some (makeTablesKey tables) else none
  let vk := valueKey autoInvalidate isTag keyEnc tablesKey
  let keepTtl := (config.bind CacheConfig.keepTtl) = some true
  let existing : Option (CacheEntry V) := if keepTtl then asEntry (getItem s vk) else none
  let expiresAt := toExpiresAt now config defaultConfig (existing.bind CacheEntry.expiresAt)
  let deadOnArrival : Bool :=
    match expiresAt with
    | some ea => decide (ea ≤ now)
    | none => false
  if deadOnArrival then
    dropEntry
      { autoInvalidate := autoInvalidate, isTag := isTag, keyEnc := keyEnc,
        tablesKey := tablesKey, fallbackTables := some tables } s
  else
    let entry : CacheEntry V :=
      { value := response, expiresAt := expiresAt,
        tables := if autoInvalidate then some tables else none }
    let writes : List (String × StVal V) :=
      (vk, StVal.entry entry) ::
        (if autoInvalidate = true ∧ tablesKey.getD "" ≠ "" then
          tables.map (fun table =>
            (indexKey table (tablesKey.getD "") isTag keyEnc, StVal.num (expiresAt.getD 1))) ++
          (if isTag then [(tagMapKey keyEnc, StVal.str (tablesKey.getD ""))] else [])
        else if isTag then [(tagMapKey keyEnc, StVal.str "NAI")] else [])
    some (setMany s writes)

/-- `get`: tag lookups consult the tag map to recover the table-set digest;
query lookups derive auto-invalidation from the caller hint or from the
table list.  An expired hit is dropped and reported as a miss.  The result
pairs the returned value with the post-state; the outer `Option` models a
thrown `URIError`. -/
def get (s : Storage V) (key : String) (tables : List String) (isTag : Bool)
    (isAutoInvalidate : Option Bool) (now : Int) : Option (Option V × Storage V) :=
  let keyEnc := encode key
  if isTag then
    match asStr (getItem s (tagMapKey keyEnc)) with
    | none => some (none, s)
    | some mapValue =>
      if mapValue = "" then some (none, s)
      else
        let autoInvalidate : Bool := mapValue != "NAI"
        let tablesKey : Option String := if autoInvalidate then some mapValue else none
        let vk := valueKey autoInvalidate true keyEnc tablesKey
        match asEntry (getItem s vk) with
        | none => some (none, s)
        | some entry =>
          if isExpired entry now then
            match (match tablesKey with
                   | some tk => if tk ≠ "" then decodeTablesKey (some tk) else some []
                   | none => some []) with
            | none => none
            | some fallbackTables =>
              (dropEntry
                { autoInvalidate := autoInvalidate, isTag := true, keyEnc := keyEnc,
                  tablesKey := tablesKey, entry := some entry,
                  fallbackTables := some fallbackTables, removeTagMap := true } s).map
                (fun s2 => (none, s2))
          else some (some entry.value, s)
  else
    let autoInvalidate := isAutoInvalidate.getD (autoFlag tables)
    let tablesKey : Option String := if autoInvalidate then some (makeTablesKey tables) else none
    let vk := valueKey autoInvalidate false keyEnc tablesKey
    match asEntry (getItem s vk) with
    | none => some (none, s)
    | some entry =>
      if isExpired entry now then
        (dropEntry
          { autoInvalidate := autoInvalidate, isTag := false, keyEnc := keyEnc,
            tablesKey := tablesKey, entry := some entry,
            fallbackTables := some tables } s).map (fun s2 => (none, s2))
      else some (some entry.value, s)

/-- The value keys `invalidateTables` reconstructs from the enumerated
index keys: parse each key and rebuild the owning entry's storage key;
keys that fail to parse contribute nothing. -/
def collectValueKeys (indexKeys : List String) : List String :=
  (indexKeys.filterMap parseIndexKey).map
    (fun parsed => valueKey true parsed.isTag parsed.keyEnc (some parsed.tablesKey))

/-- `invalidateTables`: enumerate the index records under each mutated
table's prefix, rebuild the owning entries' value keys from the records
that parse, and delete the enumerated index records together with those
value records. -/
def invalidateTables (tables : List String) (s : Storage V) : Storage V :=
  if tables = [] then s
  else
    let indexKeys := dedupFirst (tables.flatMap (fun table => getKeys s (indexTablePfx table)))
    if indexKeys = [] then s
    else
      let valueKeys := dedupFirst (collectValueKeys indexKeys)
      removeAll s (indexKeys ++ valueKeys)

/-- `invalidateTag`: with no mapping or the `"NAI"` sentinel, delete the
non-indexed value record and the mapping; with a real digest, delete the
value record, one index record per table of the digest, and the mapping. -/
def invalidateTag (tag : String) (s : Storage V) : Option (Storage V) :=
  let keyEnc := encode tag
  let mapValue := asStr (getItem s (tagMapKey keyEnc))
  if mapValue = none ∨ mapValue = some "" ∨ mapValue = some "NAI" then
    some (removeItem (removeItem s (valueKey false true keyEnc none)) (tagMapKey keyEnc))
  else
    match mapValue with
    | none => none
    | some tablesKey =>
      match decodeTablesKey (some tablesKey) with
      | none => none
      | some tables =>
        let s1 := removeItem s (valueKey true true keyEnc (some tablesKey))
        let s2 := tables.foldl
          (fun st table => removeItem st (indexKey table tablesKey true keyEnc)) s1
        some (removeItem s2 (tagMapKey keyEnc))

/-- `invalidateTags`: no-op on an empty list, else invalidate each tag in
the list (one `invalidateTag` call per element). -/
def invalidateTags (tags : List String) (s : Storage V) : Option (Storage V) :=
  if tags = [] then some s
  else tags.foldlM (fun st tag => invalidateTag tag st) s

/-- The tag list `onMutate` passes to tag invalidation:
`normalizeTags(params.tags)`. -/
def onMutateTags (tags : MutParam) : List String := normalizeTags tags

/-- The table list `onMutate` passes to table invalidation:
`Array.from(new Set(normalizeTables(params.tables)))`. -/
def onMutateTables (tables : MutParam) : List String :=
  dedupFirst (normalizeTables tables)

/-- `onMutate`: run tag invalidation and table invalidation on the
computed lists (modelled sequentially; the two touch disjoint key
spaces). -/
def onMutate (tags tables : MutParam) (s : Storage V) : Option (Storage V) :=
  (invalidateTags (onMutateTags tags) s).map (invalidateTables (onMutateTables tables))

/-! ## Codec lemmas -/

theorem char_valid_nat (c : Char) :
    c.toNat < 0xD800 ∨ (0xDFFF < c.toNat ∧ c.toNat < 0x110000) := by
  have h := c.valid
  simpa [UInt32.isValidChar, Nat.isValidChar, Char.toNat] using h

theorem char_toNat_lt (c : Char) : c.toNat < 0x110000 := by
  rcases char_valid_nat c with h | ⟨_, h⟩ <;> omega

theorem hexVal_hexDigit : ∀ n, n < 16 → hexVal (hexDigit n) = some n := by decide

theorem utf8Bytes_lt (n : Nat) (h : n < 0x110000) : ∀ b ∈ utf8Bytes n, b < 256 := by
  intro b hb
  unfold utf8Bytes at hb
  split_ifs at hb <;> simp_all <;> omega

theorem unescape_pct (b : Nat) (hb : b < 256) (l : List Char) :
    unescape (pctByte b ++ l) = (unescape l).map (fun ts => Tok.byte b :: ts) := by
  have h1 : hexVal (hexDigit (b / 16)) = some (b / 16) := hexVal_hexDigit _ (by omega)
  have h2 : hexVal (hexDigit (b % 16)) = some (b % 16) := hexVal_hexDigit _ (by omega)
  have h3 : b / 16 * 16 + b % 16 = b := by omega
  simp [pctByte, unescape, h1, h2, h3]

theorem unescape_bytes (bs : List Nat) (h : ∀ b ∈ bs, b < 256) (l : List Char) :
    unescape (bs.flatMap pctByte ++ l) =
      (unescape l).map (fun ts => bs.map Tok.byte ++ ts) := by
  induction bs with
  | nil => simp
  | cons b bs ih =>
    have hb : b < 256 := h b (by simp)
    have hrest : ∀ x ∈ bs, x < 256 := fun x hx => h x (by simp [hx])
    rw [List.flatMap_cons, List.append_assoc, unescape_pct b hb, ih hrest]
    cases unescape l <;> simp

theorem isUnreserved_ne_pct {c : Char} (h : isUnreserved c = true) : c ≠ '%' := by
  intro he
  subst he
  simp [isUnreserved] at h

theorem unescape_encodeChar (c : Char) (l : List Char) :
    unescape (encodeChar c ++ l) =
      (unescape l).map (fun ts =>
        (if isUnreserved c then [Tok.chr c] else (utf8Bytes c.toNat).map Tok.byte) ++ ts) := by
  cases hu : isUnreserved c with
  | true =>
    have hc := isUnreserved_ne_pct hu
    simp only [encodeChar, hu, if_true, List.singleton_append]
    conv_lhs => rw [unescape.eq_def]
    simp [hc]
  | false =>
    simp only [encodeChar, hu, Bool.false_eq_true, if_false]
    rw [unescape_bytes _ (utf8Bytes_lt _ (char_toNat_lt c)) l]

/-- The token sequence `unescape` recovers from `encodeChar c`. -/
def encTok (c : Char) : List Tok :=
  if isUnreserved c then [Tok.chr c] else (utf8Bytes c.toNat).map Tok.byte

theorem isCont_of (b : Nat) (h1 : 0x80 ≤ b) (h2 : b < 0xC0) : isCont b = true := by
  simp only [isCont, Bool.and_eq_true, decide_eq_true_eq]
  omega

theorem asmAux_lead2 (b : Nat) (h1 : 0xC0 ≤ b) (h2 : b < 0xE0) (rest : List Tok) :
    asmAux (Tok.byte b :: rest) 0 0 0 = asmAux rest 1 (b - 0xC0) 0x80 := by
  have d1 : ¬ b < 0x80 := by omega
  have d2 : ¬ b < 0xC0 := by omega
  simp [asmAux, d1, d2, h2]

theorem asmAux_lead3 (b : Nat) (h1 : 0xE0 ≤ b) (h2 : b < 0xF0) (rest : List Tok) :
    asmAux (Tok.byte b :: rest) 0 0 0 = asmAux rest 2 (b - 0xE0) 0x800 := by
  have d1 : ¬ b < 0x80 := by omega
  have d2 : ¬ b < 0xC0 := by omega
  have d3 : ¬ b < 0xE0 := by omega
  simp [asmAux, d1, d2, d3, h2]

theorem asmAux_lead4 (b : Nat) (h1 : 0xF0 ≤ b) (h2 : b < 0xF8) (rest : List Tok) :
    asmAux (Tok.byte b :: rest) 0 0 0 = asmAux rest 3 (b - 0xF0) 0x10000 := by
  have d1 : ¬ b < 0x80 := by omega
  have d2 : ¬ b < 0xC0 := by omega
  have d3 : ¬ b < 0xE0 := by omega
  have d4 : ¬ b < 0xF0 := by omega
  simp [asmAux, d1, d2, d3, d4, h2]

theorem asmAux_cont (b acc mn need : Nat) (rest : List Tok) (hc : isCont b = true) :
    asmAux (Tok.byte b :: rest) (need + 2) acc mn =
      asmAux rest (need + 1) (acc * 64 + (b - 0x80)) mn := by
  simp [asmAux, hc]

theorem asmAux_complete (b acc mn : Nat) (rest : List Tok) (hc : isCont b = true)
    (h : mn ≤ acc * 64 + (b - 0x80) ∧
      (acc * 64 + (b - 0x80) < 0xD800 ∨ 0xE000 ≤ acc * 64 + (b - 0x80)) ∧
      acc * 64 + (b - 0x80) < 0x110000) :
    asmAux (Tok.byte b :: rest) 1 acc mn =
      (asmAux rest 0 0 0).map (fun l => Char.ofNat (acc * 64 + (b - 0x80)) :: l) := by
  simp [asmAux, hc, h]

theorem assemble_b1 (n : Nat) (h : n < 0x80) (ts : List Tok) :
    utf8Assemble (Tok.byte n :: ts) =
      (utf8Assemble ts).map (fun l => Char.ofNat n :: l) := by
  simp [utf8Assemble, asmAux, h]

theorem assemble_b2 (n : Nat) (h1 : 0x80 ≤ n) (h2 : n < 0x800) (ts : List Tok) :
    utf8Assemble (Tok.byte (0xC0 + n / 64) :: Tok.byte (0x80 + n % 64) :: ts) =
      (utf8Assemble ts).map (fun l => Char.ofNat n :: l) := by
  unfold utf8Assemble
  rw [asmAux_lead2 _ (by omega) (by omega),
    show 0xC0 + n / 64 - 0xC0 = n / 64 from by omega,
    asmAux_complete _ _ _ _ (isCont_of _ (by omega) (by omega)) (by constructor <;> omega),
    show n / 64 * 64 + (0x80 + n % 64 - 0x80) = n from by omega]

theorem assemble_b3 (n : Nat) (h1 : 0x800 ≤ n) (h2 : n < 0x10000)
    (hs : n < 0xD800 ∨ 0xE000 ≤ n) (ts : List Tok) :
    utf8Assemble (Tok.byte (0xE0 + n / 4096) :: Tok.byte (0x80 + n / 64 % 64) ::
        Tok.byte (0x80 + n % 64) :: ts) =
      (utf8Assemble ts).map (fun l => Char.ofNat n :: l) := by
  unfold utf8Assemble
  rw [asmAux_lead3 _ (by omega) (by omega),
    show 0xE0 + n / 4096 - 0xE0 = n / 4096 from by omega,
    show (2 : Nat) = 0 + 2 from rfl,
    asmAux_cont _ _ _ _ _ (isCont_of _ (by omega) (by omega)),
    asmAux_complete _ _ _ _ (isCont_of _ (by omega) (by omega))
      (by refine ⟨by omega, ?_, by omega⟩; omega),
    show (n / 4096 * 64 + (0x80 + n / 64 % 64 - 0x80)) * 64 + (0x80 + n % 64 - 0x80) = n
      from by omega]

theorem assemble_b4 (n : Nat) (h1 : 0x10000 ≤ n) (h2 : n < 0x110000) (ts : List Tok) :
    utf8Assemble (Tok.byte (0xF0 + n / 262144) :: Tok.byte (0x80 + n / 4096 % 64) ::
        Tok.byte (0x80 + n / 64 % 64) :: Tok.byte (0x80 + n % 64) :: ts) =
      (utf8Assemble ts).map (fun l => Char.ofNat n :: l) := by
  unfold utf8Assemble
  rw [asmAux_lead4 _ (by omega) (by omega),
    show 0xF0 + n / 262144 - 0xF0 = n / 262144 from by omega,
    show (3 : Nat) = 1 + 2 from rfl,
    asmAux_cont _ _ _ _ _ (isCont_of _ (by omega) (by omega)),
    show (1 : Nat) + 1 = 0 + 2 from rfl,
    asmAux_cont _ _ _ _ _ (isCont_of _ (by omega) (by omega)),
    asmAux_complete _ _ _ _ (isCont_of _ (by omega) (by omega))
      (by refine ⟨by omega, ?_, by omega⟩; omega),
    show ((n / 262144 * 64 + (0x80 + n / 4096 % 64 - 0x80)) * 64 +
        (0x80 + n / 64 % 64 - 0x80)) * 64 + (0x80 + n % 64 - 0x80) = n from by omega]

theorem assemble_encTok (c : Char) (ts : List Tok) :
    utf8Assemble (encTok c ++ ts) = (utf8Assemble ts).map (fun l => c :: l) := by
  cases hu : isUnreserved c with
  | true =>
    simp only [encTok, hu, if_true, List.singleton_append]
    simp [utf8Assemble, asmAux]
  | false =>
    simp only [encTok, hu, Bool.false_eq_true, if_false]
    have hlt := char_toNat_lt c
    have hvalid := char_valid_nat c
    by_cases r1 : c.toNat < 0x80
    · rw [show utf8Bytes c.toNat = [c.toNat] by unfold utf8Bytes; rw [if_pos r1]]
      simp only [List.map_cons, List.map_nil, List.cons_append, List.nil_append]
      rw [assemble_b1 _ r1, Char.ofNat_toNat]
    · by_cases r2 : c.toNat < 0x800
      · rw [show utf8Bytes c.toNat = [0xC0 + c.toNat / 64, 0x80 + c.toNat % 64] by
          unfold utf8Bytes; rw [if_neg r1, if_pos r2]]
        simp only [List.map_cons, List.map_nil, List.cons_append, List.nil_append]
        rw [assemble_b2 _ (by omega) r2, Char.ofNat_toNat]
      · by_cases r3 : c.toNat < 0x10000
        · rw [show utf8Bytes c.toNat =
              [0xE0 + c.toNat / 4096, 0x80 + c.toNat / 64 % 64, 0x80 + c.toNat % 64] by
            unfold utf8Bytes; rw [if_neg r1, if_neg r2, if_pos r3]]
          simp only [List.map_cons, List.map_nil, List.cons_append, List.nil_append]
          have hs : c.toNat < 0xD800 ∨ 0xE000 ≤ c.toNat := by omega
          rw [assemble_b3 _ (by omega) r3 hs, Char.ofNat_toNat]
        · rw [show utf8Bytes c.toNat =
              [0xF0 + c.toNat / 262144, 0x80 + c.toNat / 4096 % 64,
               0x80 + c.toNat / 64 % 64, 0x80 + c.toNat % 64] by
            unfold utf8Bytes; rw [if_neg r1, if_neg r2, if_neg r3]]
          simp only [List.map_cons, List.map_nil, List.cons_append, List.nil_append]
          rw [assemble_b4 _ (by omega) hlt, Char.ofNat_toNat]

theorem unescape_encodeList (l : List Char) :
    unescape (encodeList l) = some (l.flatMap encTok) := by
  induction l with
  | nil => simp [encodeList, unescape]
  | cons c l ih =>
    have : encodeList (c :: l) = encodeChar c ++ encodeList l := by
      simp [encodeList]
    rw [this, unescape_encodeChar, ih]
    simp [encTok]

theorem assemble_flatMap_encTok (l : List Char) :
    utf8Assemble (l.flatMap encTok) = some l := by
  induction l with
  | nil => rw [List.flatMap_nil]; rfl
  | cons c l ih => rw [List.flatMap_cons, assemble_encTok, ih]; rfl

/-- Claim C9: for every string used as a table name, tag or fingerprint,
decoding the encoded form gives back the original string:
`decodeURIComponent (encode s) = some s`. -/
theorem c9_codec_roundtrip (s : String) : decodeURIComponent (encode s) = some s := by
  show (unescape (encodeList s.data)).bind
    (fun ts => (utf8Assemble ts).map (fun l => ⟨l⟩)) = some s
  rw [unescape_encodeList]
  show (utf8Assemble (s.data.flatMap encTok)).map (fun l => (⟨l⟩ : String)) = some s
  rw [assemble_flatMap_encTok]
  rfl

/-! ## Shape of encoded strings: never a colon, never empty for
nonempty input -/

theorem hexDigit_ne_colon : ∀ n, n < 16 → hexDigit n ≠ ':' := by decide

theorem mem_encodeChar_ne_colon (c : Char) : ∀ x ∈ encodeChar c, x ≠ ':' := by
  intro x hx
  unfold encodeChar at hx
  cases hu : isUnreserved c with
  | true =>
    rw [hu, if_pos rfl] at hx
    simp only [List.mem_singleton] at hx
    subst hx
    intro hcol
    subst hcol
    simp [isUnreserved] at hu
  | false =>
    rw [hu] at hx
    simp only [Bool.false_eq_true, if_false, List.mem_flatMap] at hx
    obtain ⟨b, hb, hxb⟩ := hx
    have hb256 : b < 256 := utf8Bytes_lt _ (char_toNat_lt c) b hb
    simp only [pctByte, List.mem_cons, List.mem_singleton] at hxb
    rcases hxb with h | h | h | h
    · subst h; decide
    · subst h; exact hexDigit_ne_colon _ (by omega)
    · subst h; exact hexDigit_ne_colon _ (by omega)
    · exact absurd h (List.not_mem_nil x)

theorem encode_data_ne_colon (s : String) : ∀ x ∈ (encode s).data, x ≠ ':' := by
  intro x hx
  have : (encode s).data = encodeList s.data := rfl
  rw [this] at hx
  simp only [encodeList, List.mem_flatMap] at hx
  obtain ⟨c, _, hxc⟩ := hx
  exact mem_encodeChar_ne_colon c x hxc

theorem utf8Bytes_ne_nil (n : Nat) : utf8Bytes n ≠ [] := by
  unfold utf8Bytes
  split_ifs <;> simp

theorem encodeChar_ne_nil (c : Char) : encodeChar c ≠ [] := by
  unfold encodeChar
  cases hu : isUnreserved c with
  | true => simp
  | false =>
    simp only [Bool.false_eq_true, if_false]
    cases hb : utf8Bytes c.toNat with
    | nil => exact absurd hb (utf8Bytes_ne_nil _)
    | cons b bs => simp [pctByte]

theorem encode_ne_empty (s : String) (h : s ≠ "") : encode s ≠ "" := by
  intro he
  apply h
  have hd : (encode s).data = [] := by rw [he]
  have : encodeList s.data = [] := hd
  cases hsd : s.data with
  | nil => exact String.ext hsd
  | cons c l =>
    rw [hsd] at this
    simp only [encodeList, List.flatMap_cons, List.append_eq_nil] at this
    exact absurd this.1 (encodeChar_ne_nil c)

/-! ## Splitting composite keys -/

theorem splitCells_no_sep (sep : Char) (a : List Char) (h : ∀ c ∈ a, c ≠ sep) :
    splitCells sep a = [a] := by
  induction a with
  | nil => rfl
  | cons c rest ih =>
    have hc : c ≠ sep := h c (by simp)
    have hrest : ∀ x ∈ rest, x ≠ sep := fun x hx => h x (by simp [hx])
    unfold splitCells
    rw [if_neg hc, ih hrest]

theorem splitCells_append (sep : Char) (a b : List Char) (h : ∀ c ∈ a, c ≠ sep) :
    splitCells sep (a ++ sep :: b) = a :: splitCells sep b := by
  induction a with
  | nil => simp [splitCells]
  | cons c rest ih =>
    have hc : c ≠ sep := h c (by simp)
    have hrest : ∀ x ∈ rest, x ≠ sep := fun x hx => h x (by simp [hx])
    have ih2 := ih hrest
    show splitCells sep (c :: (rest ++ sep :: b)) = (c :: rest) :: splitCells sep b
    rw [splitCells, if_neg hc, ih2]

/-- A string none of whose characters is a colon. -/
def NoColon (s : String) : Prop := ∀ c ∈ s.data, c ≠ ':'

theorem noColon_encode (s : String) : NoColon (encode s) := encode_data_ne_colon s

theorem splitColon_five (t1 t2 t3 t4 t5 : String)
    (h1 : NoColon t1) (h2 : NoColon t2) (h3 : NoColon t3) (h4 : NoColon t4)
    (h5 : NoColon t5) :
    splitColon (t1 ++ ":" ++ t2 ++ ":" ++ t3 ++ ":" ++ t4 ++ ":" ++ t5) =
      [t1, t2, t3, t4, t5] := by
  have hdata : (t1 ++ ":" ++ t2 ++ ":" ++ t3 ++ ":" ++ t4 ++ ":" ++ t5).data =
      t1.data ++ ':' :: (t2.data ++ ':' :: (t3.data ++ ':' :: (t4.data ++ ':' :: t5.data))) := by
    simp [String.data_append]
  unfold splitColon
  rw [hdata, splitCells_append _ _ _ h1, splitCells_append _ _ _ h2,
    splitCells_append _ _ _ h3, splitCells_append _ _ _ h4, splitCells_no_sep _ _ h5]
  rfl

/-! ## The sort used by `makeTablesKey` -/

theorem lexLe_total (a b : List Char) : lexLe a b = true ∨ lexLe b a = true := by
  induction a generalizing b with
  | nil => left; rfl
  | cons x xs ih =>
    cases b with
    | nil => right; rfl
    | cons y ys =>
      by_cases hxy : x.toNat < y.toNat
      · left; unfold lexLe; rw [if_pos hxy]
      · by_cases hyx : y.toNat < x.toNat
        · right; unfold lexLe; rw [if_pos hyx]
        · rcases ih ys with h | h
          · left; unfold lexLe; rw [if_neg hxy, if_neg hyx]; exact h
          · right; unfold lexLe; rw [if_neg hyx, if_neg hxy]; exact h

theorem lexLe_trans {a b c : List Char} (hab : lexLe a b = true)
    (hbc : lexLe b c = true) : lexLe a c = true := by
  induction a generalizing b c with
  | nil => rfl
  | cons x xs ih =>
    cases b with
    | nil => simp [lexLe] at hab
    | cons y ys =>
      cases c with
      | nil => simp [lexLe] at hbc
      | cons z zs =>
        unfold lexLe at hab hbc ⊢
        split_ifs at hab hbc ⊢ <;>
          first
          | rfl
          | omega
          | exact ih hab hbc

theorem char_toNat_inj {x y : Char} (h : x.toNat = y.toNat) : x = y :=
  Char.ext (UInt32.ext h)

theorem lexLe_antisymm {a b : List Char} (hab : lexLe a b = true)
    (hba : lexLe b a = true) : a = b := by
  induction a generalizing b with
  | nil =>
    cases b with
    | nil => rfl
    | cons y ys => simp [lexLe] at hba
  | cons x xs ih =>
    cases b with
    | nil => simp [lexLe] at hab
    | cons y ys =>
      unfold lexLe at hab hba
      by_cases hxy : x.toNat < y.toNat
      · rw [if_neg (show ¬ y.toNat < x.toNat by omega), if_pos hxy] at hba
        exact Bool.noConfusion hba
      · by_cases hyx : y.toNat < x.toNat
        · rw [if_neg hxy, if_pos hyx] at hab
          exact Bool.noConfusion hab
        · rw [if_neg hxy, if_neg hyx] at hab
          rw [if_neg hyx, if_neg hxy] at hba
          have hxyeq : x = y := char_toNat_inj (by omega)
          rw [hxyeq, ih hab hba]

theorem strLe_total : ∀ a b : String, strLe a b = true ∨ strLe b a = true :=
  fun a b => lexLe_total a.data b.data

theorem strLe_trans {a b c : String} (hab : strLe a b = true)
    (hbc : strLe b c = true) : strLe a c = true := lexLe_trans hab hbc

theorem strLe_antisymm {a b : String} (hab : strLe a b = true)
    (hba : strLe b a = true) : a = b := String.ext (lexLe_antisymm hab hba)

instance strLeIsTotal : IsTotal String (fun a b => strLe a b = true) := ⟨strLe_total⟩

instance strLeIsTrans : IsTrans String (fun a b => strLe a b = true) :=
  ⟨fun _ _ _ => strLe_trans⟩

instance strLeIsAntisymm : IsAntisymm String (fun a b => strLe a b = true) :=
  ⟨fun _ _ => strLe_antisymm⟩

theorem sortStrings_perm (l : List String) : (sortStrings l).Perm l :=
  List.perm_insertionSort _ l

theorem sortStrings_eq_of_perm {l1 l2 : List String} (h : l1.Perm l2) :
    sortStrings l1 = sortStrings l2 := by
  refine List.eq_of_perm_of_sorted ?_
    (List.sorted_insertionSort _ l1) (List.sorted_insertionSort _ l2)
  exact ((sortStrings_perm l1).trans h).trans (sortStrings_perm l2).symm

/-! ## Shape of `makeTablesKey` digests -/

theorem joinComma_ne_colon (l : List String) (h : ∀ x ∈ l, NoColon x) :
    NoColon (joinComma l) := by
  induction l with
  | nil => intro c hc; cases hc
  | cons x xs ih =>
    cases xs with
    | nil =>
      intro c hc
      exact h x (by simp) c hc
    | cons y ys =>
      intro c hc
      have hx : NoColon x := h x (by simp)
      have hrest : NoColon (joinComma (y :: ys)) := ih (fun z hz => h z (by simp [hz]))
      have : (x ++ "," ++ joinComma (y :: ys)).data =
          x.data ++ ',' :: (joinComma (y :: ys)).data := by
        simp [String.data_append]
      rw [show joinComma (x :: y :: ys) = x ++ "," ++ joinComma (y :: ys) from rfl] at hc
      rw [this] at hc
      rcases List.mem_append.mp hc with hcx | hcy
      · exact hx c hcx
      · rcases List.mem_cons.mp hcy with hcc | hcy2
        · subst hcc; decide
        · exact hrest c hcy2

theorem makeTablesKey_no_colon (ts : List String) : NoColon (makeTablesKey ts) := by
  unfold makeTablesKey
  split_ifs with h
  · intro c hc; cases hc
  · apply joinComma_ne_colon
    intro x hx
    have : x ∈ ts.map encode := (sortStrings_perm _).mem_iff.mp hx
    obtain ⟨t, _, rfl⟩ := List.mem_map.mp this
    exact noColon_encode t

theorem joinComma_ne_empty (l : List String) (hne : l ≠ [])
    (h : ∀ x ∈ l, x ≠ "") : joinComma l ≠ "" := by
  cases l with
  | nil => exact absurd rfl hne
  | cons x xs =>
    cases xs with
    | nil => exact h x (by simp)
    | cons y ys =>
      intro he
      have : (x ++ "," ++ joinComma (y :: ys)).data =
          x.data ++ ',' :: (joinComma (y :: ys)).data := by
        simp [String.data_append]
      have hd : (joinComma (x :: y :: ys)).data = [] := by rw [he]
      rw [show joinComma (x :: y :: ys) = x ++ "," ++ joinComma (y :: ys) from rfl,
        this] at hd
      exact absurd hd (by simp)

theorem makeTablesKey_ne_empty (ts : List String) (hne : ts ≠ [])
    (h : ∀ t ∈ ts, t ≠ "") : makeTablesKey ts ≠ "" := by
  unfold makeTablesKey
  rw [if_neg hne]
  apply joinComma_ne_empty
  · intro hs
    have : (ts.map encode).length = 0 := by
      rw [← (sortStrings_perm (ts.map encode)).length_eq, hs]
      rfl
    cases ts with
    | nil => exact absurd rfl hne
    | cons a l => simp at this
  · intro x hx
    have : x ∈ ts.map encode := (sortStrings_perm _).mem_iff.mp hx
    obtain ⟨t, ht, rfl⟩ := List.mem_map.mp this
    exact encode_ne_empty t (h t ht)

/-! ## Storage model lemmas -/

theorem getItem_removeItem_self (s : Storage V) (k : String) :
    getItem (removeItem s k) k = none := by
  induction s with
  | nil => rfl
  | cons kv rest ih =>
    unfold removeItem at ih ⊢
    rw [List.filter_cons]
    by_cases h : kv.1 = k
    · rw [if_neg (by simp [h])]
      exact ih
    · rw [if_pos (by simp [h])]
      simp only [getItem, List.find?_cons, show (kv.1 == k) = false from by simp [h]]
      exact ih

theorem getItem_removeItem_ne (s : Storage V) (k k' : String) (h : k' ≠ k) :
    getItem (removeItem s k) k' = getItem s k' := by
  induction s with
  | nil => rfl
  | cons kv rest ih =>
    unfold removeItem at ih ⊢
    rw [List.filter_cons]
    by_cases hk : kv.1 = k
    · rw [if_neg (by simp [hk])]
      rw [ih]
      simp only [getItem, List.find?_cons,
        show (kv.1 == k') = false from by simp [hk]; exact fun he => h he.symm]
    · rw [if_pos (by simp [hk])]
      by_cases hk' : kv.1 = k'
      · simp [getItem, List.find?_cons, hk']
      · simp only [getItem, List.find?_cons, show (kv.1 == k') = false from by simp [hk']]
        exact ih

theorem getItem_setItem_self (s : Storage V) (k : String) (v : StVal V) :
    getItem (setItem s k v) k = some v := by
  simp [setItem, getItem, List.find?_cons]

theorem getItem_setItem_ne (s : Storage V) (k k' : String) (v : StVal V) (h : k' ≠ k) :
    getItem (setItem s k v) k' = getItem s k' := by
  simp only [setItem, getItem, List.find?_cons,
    show (k == k') = false from by simp; exact fun he => h he.symm]
  exact getItem_removeItem_ne s k k' h

theorem getItem_removeAll_not_mem (s : Storage V) (ks : List String) (k : String)
    (h : k ∉ ks) : getItem (removeAll s ks) k = getItem s k := by
  induction ks generalizing s with
  | nil => rfl
  | cons k0 rest ih =>
    show getItem (removeAll (removeItem s k0) rest) k = getItem s k
    have h1 : k ∉ rest := fun hm => h (by simp [hm])
    have h2 : k ≠ k0 := fun he => h (by simp [he])
    rw [ih _ h1, getItem_removeItem_ne _ _ _ h2]

theorem getItem_removeAll_mem (s : Storage V) (ks : List String) (k : String)
    (h : k ∈ ks) : getItem (removeAll s ks) k = none := by
  induction ks generalizing s with
  | nil => cases h
  | cons k0 rest ih =>
    show getItem (removeAll (removeItem s k0) rest) k = none
    by_cases hk : k ∈ rest
    · exact ih _ hk
    · have hk0 : k = k0 := by
        rcases List.mem_cons.mp h with h1 | h1
        · exact h1
        · exact absurd h1 hk
      subst hk0
      calc getItem (removeAll (removeItem s k) rest) k
          = getItem (removeItem s k) k := getItem_removeAll_not_mem _ _ _ hk
        _ = none := getItem_removeItem_self s k

theorem getItem_setMany_not_mem (s : Storage V) (items : List (String × StVal V))
    (k : String) (h : k ∉ items.map Prod.fst) :
    getItem (setMany s items) k = getItem s k := by
  induction items generalizing s with
  | nil => rfl
  | cons it rest ih =>
    show getItem (setMany (setItem s it.1 it.2) rest) k = getItem s k
    have h1 : k ∉ rest.map Prod.fst := fun hm => h (by simp [hm])
    have h2 : k ≠ it.1 := fun he => h (by simp [he])
    rw [ih _ h1, getItem_setItem_ne _ _ _ _ h2]

theorem getItem_setMany_head (s : Storage V) (items : List (String × StVal V))
    (k : String) (v : StVal V) (h : k ∉ items.map Prod.fst) :
    getItem (setMany s ((k, v) :: items)) k = some v := by
  show getItem (setMany (setItem s k v) items) k = some v
  rw [getItem_setMany_not_mem _ _ _ h, getItem_setItem_self]

theorem getItem_setMany_isSome_of_mem (s : Storage V) (items : List (String × StVal V))
    (k : String) (h : k ∈ items.map Prod.fst) :
    (getItem (setMany s items) k).isSome = true := by
  induction items generalizing s with
  | nil => cases h
  | cons it rest ih =>
    show (getItem (setMany (setItem s it.1 it.2) rest) k).isSome = true
    by_cases hk : k ∈ rest.map Prod.fst
    · exact ih _ hk
    · have hk0 : k = it.1 := by
        rcases List.mem_cons.mp h with h1 | h1
        · exact h1
        · exact absurd h1 hk
      subst hk0
      rw [getItem_setMany_not_mem _ _ _ hk, getItem_setItem_self]
      rfl

theorem mem_keys_iff_getItem_isSome (s : Storage V) (k : String) :
    k ∈ s.map Prod.fst ↔ (getItem s k).isSome = true := by
  induction s with
  | nil => simp [getItem]
  | cons kv rest ih =>
    by_cases h : kv.1 = k
    · simp [getItem, List.find?_cons, h]
    · simp only [List.map_cons, List.mem_cons, getItem, List.find?_cons,
        show (kv.1 == k) = false from by simp [h]]
      constructor
      · intro h1
        rcases h1 with h1 | h1
        · exact absurd h1.symm h
        · exact (ih.mp h1)
      · intro h1
        exact Or.inr (ih.mpr h1)

theorem mem_getKeys_iff (s : Storage V) (pfx k : String) :
    k ∈ getKeys s pfx ↔ k ∈ s.map Prod.fst ∧ pfx.data.isPrefixOf k.data = true := by
  simp [getKeys, List.mem_filter]

/-! ## Deduplication lemmas -/

theorem mem_dedupFirstAux [DecidableEq α] (seen l : List α) (a : α) :
    a ∈ dedupFirstAux seen l ↔ (a ∈ l ∧ a ∉ seen) := by
  induction l generalizing seen with
  | nil => simp [dedupFirstAux]
  | cons b rest ih =>
    unfold dedupFirstAux
    by_cases hb : b ∈ seen
    · rw [if_pos hb, ih]
      constructor
      · intro ⟨h1, h2⟩
        exact ⟨by simp [h1], h2⟩
      · intro ⟨h1, h2⟩
        rcases List.mem_cons.mp h1 with h3 | h3
        · subst h3; exact absurd hb h2
        · exact ⟨h3, h2⟩
    · rw [if_neg hb]
      simp only [List.mem_cons, ih]
      constructor
      · intro h1
        rcases h1 with h1 | ⟨h1, h2⟩
        · subst h1; exact ⟨Or.inl rfl, hb⟩
        · exact ⟨Or.inr h1, fun hm => h2 (by simp [hm])⟩
      · intro ⟨h1, h2⟩
        rcases h1 with h1 | h1
        · exact Or.inl h1
        · by_cases hab : a = b
          · exact Or.inl hab
          · exact Or.inr ⟨h1, by simp [hab, h2]⟩

theorem mem_dedupFirst [DecidableEq α] (l : List α) (a : α) :
    a ∈ dedupFirst l ↔ a ∈ l := by
  simp [dedupFirst, mem_dedupFirstAux]

theorem nodup_dedupFirstAux [DecidableEq α] (seen l : List α) :
    (dedupFirstAux seen l).Nodup := by
  induction l generalizing seen with
  | nil => exact List.nodup_nil
  | cons b rest ih =>
    unfold dedupFirstAux
    by_cases hb : b ∈ seen
    · rw [if_pos hb]; exact ih seen
    · rw [if_neg hb]
      refine List.Nodup.cons ?_ (ih (b :: seen))
      intro hmem
      exact ((mem_dedupFirstAux _ _ _).mp hmem).2 (by simp)

theorem nodup_dedupFirst [DecidableEq α] (l : List α) : (dedupFirst l).Nodup :=
  nodup_dedupFirstAux [] l

/-! ## Shape facts about the adapter's composite keys -/

theorem data_CTS : ("__CTS__" : String).data = ['_', '_', 'C', 'T', 'S', '_', '_'] := rfl

theorem data_CT : ("__CT__" : String).data = ['_', '_', 'C', 'T', '_', '_'] := rfl

theorem data_NAI : ("__NAI__" : String).data = ['_', '_', 'N', 'A', 'I', '_', '_'] := rfl

theorem data_tagsMap : ("__tagsMap__" : String).data =
    ['_', '_', 't', 'a', 'g', 's', 'M', 'a', 'p', '_', '_'] := rfl

theorem data_colon : (":" : String).data = [':'] := rfl

/-- Parsing an index key the adapter itself built recovers its fields. -/
theorem parseIndexKey_indexKey (t tk kEnc : String) (isTag : Bool)
    (ht : encode t ≠ "") (htk : tk ≠ "") (htkc : NoColon tk)
    (hkc : NoColon kEnc) (hkne : kEnc ≠ "") :
    parseIndexKey (indexKey t tk isTag kEnc) =
      some ⟨encode t, tk, isTag, kEnc⟩ := by
  have hCTS : NoColon "__CTS__" := by rw [NoColon, data_CTS]; decide
  cases isTag with
  | false =>
    have hkey : indexKey t tk false kEnc =
        "__CTS__" ++ ":" ++ encode t ++ ":" ++ tk ++ ":" ++ "q" ++ ":" ++ kEnc := by
      simp [indexKey]
    have hsplit : splitColon (indexKey t tk false kEnc) =
        ["__CTS__", encode t, tk, "q", kEnc] := by
      rw [hkey]
      exact splitColon_five _ _ _ _ _ hCTS (noColon_encode t) htkc
        (by rw [NoColon]; decide) hkc
    unfold parseIndexKey
    rw [hsplit]
    simp [ht, htk, hkne]
  | true =>
    have hkey : indexKey t tk true kEnc =
        "__CTS__" ++ ":" ++ encode t ++ ":" ++ tk ++ ":" ++ "t" ++ ":" ++ kEnc := by
      simp [indexKey]
    have hsplit : splitColon (indexKey t tk true kEnc) =
        ["__CTS__", encode t, tk, "t", kEnc] := by
      rw [hkey]
      exact splitColon_five _ _ _ _ _ hCTS (noColon_encode t) htkc
        (by rw [NoColon]; decide) hkc
    unfold parseIndexKey
    rw [hsplit]
    simp [ht, htk, hkne]

/-- The per-table enumeration prefix is a prefix of that table's index keys. -/
theorem indexTablePfx_isPrefixOf_indexKey (t tk : String) (isTag : Bool) (kEnc : String) :
    (indexTablePfx t).data.isPrefixOf (indexKey t tk isTag kEnc).data = true := by
  apply List.isPrefixOf_iff_prefix.mpr
  have : indexKey t tk isTag kEnc =
      indexTablePfx t ++ (tk ++ ":" ++ (if isTag then "t" else "q") ++ ":" ++ kEnc) := by
    unfold indexKey indexTablePfx
    simp [String.append_assoc]
  rw [this, String.data_append]
  exact List.prefix_append _ _

theorem indexKey_ne_valueKey (t tk : String) (b : Bool) (k : String)
    (auto tag : Bool) (ke : String) (tko : Option String) :
    indexKey t tk b k ≠ valueKey auto tag ke tko := by
  intro h
  have hd := congrArg String.data h
  cases auto <;>
    simp [indexKey, valueKey, String.data_append, data_CTS, data_CT, data_NAI,
      data_colon] at hd

theorem tagMapKey_ne_valueKey (ke : String) (auto tag : Bool) (ke2 : String)
    (tko : Option String) : tagMapKey ke ≠ valueKey auto tag ke2 tko := by
  intro h
  have hd := congrArg String.data h
  cases auto <;>
    simp [tagMapKey, valueKey, String.data_append, data_tagsMap, data_CT, data_NAI,
      data_colon] at hd

theorem tagMapKey_ne_indexKey (ke : String) (t tk : String) (b : Bool) (k : String) :
    tagMapKey ke ≠ indexKey t tk b k := by
  intro h
  have hd := congrArg String.data h
  simp [tagMapKey, indexKey, String.data_append, data_tagsMap, data_CTS,
    data_colon] at hd

/-- The enumeration prefix for a table never reaches a value key. -/
theorem indexTablePfx_not_prefix_valueKey (t : String) (auto tag : Bool)
    (ke : String) (tko : Option String) :
    (indexTablePfx t).data.isPrefixOf (valueKey auto tag ke tko).data = false := by
  rw [Bool.eq_false_iff]
  intro h
  have hpre := List.isPrefixOf_iff_prefix.mp h
  have : (indexTablePfx t).data =
      ['_', '_', 'C', 'T', 'S', '_', '_', ':'] ++ (encode t).data ++ [':'] := by
    unfold indexTablePfx
    simp [String.data_append, data_CTS, data_colon]
  rw [this] at hpre
  obtain ⟨r, hr⟩ := hpre
  cases auto <;>
    simp [valueKey, String.data_append, data_CT, data_NAI, data_colon] at hr

/-- The enumeration prefix for a table never reaches a tag-map key. -/
theorem indexTablePfx_not_prefix_tagMapKey (t : String) (ke : String) :
    (indexTablePfx t).data.isPrefixOf (tagMapKey ke).data = false := by
  rw [Bool.eq_false_iff]
  intro h
  have hpre := List.isPrefixOf_iff_prefix.mp h
  have : (indexTablePfx t).data =
      ['_', '_', 'C', 'T', 'S', '_', '_', ':'] ++ (encode t).data ++ [':'] := by
    unfold indexTablePfx
    simp [String.data_append, data_CTS, data_colon]
  rw [this] at hpre
  obtain ⟨r, hr⟩ := hpre
  simp [tagMapKey, String.data_append, data_tagsMap, data_colon] at hr

/-! ## Claim C2: `onMutate` list handling -/

/-- Claim C2 counterexample: a mutation notification naming the tag `"x"`
twice passes the tag list `["x", "x"]` to tag invalidation unchanged, so
the tag is invalidated once per occurrence, not exactly once — `onMutate`
deduplicates only the table list. -/
theorem c2_counterexample :
    onMutateTags (some (Sum.inr ["x", "x"])) = ["x", "x"] ∧
    (onMutateTags (some (Sum.inr ["x", "x"]))).count "x" = 2 ∧
    ¬ (onMutateTags (some (Sum.inr ["x", "x"]))).Nodup := by decide

/-- Claim C2 amended: `onMutate` deduplicates and normalizes the table
list (each distinct table appears exactly once), but only normalizes the
tag list — duplicate tags are passed through and invalidated once per
occurrence. -/
theorem c2_amended (tags tables : MutParam) :
    (onMutateTables tables).Nodup ∧
    (∀ x, x ∈ onMutateTables tables ↔ x ∈ normalizeTables tables) ∧
    onMutateTags tags = normalizeTags tags :=
  ⟨nodup_dedupFirst _, fun x => mem_dedupFirst _ x, rfl⟩

/-! ## Claim C3: digest as a function of the table list -/

/-- Claim C3 counterexample: neither `makeTablesKey` nor the facade
deduplicates table names, so the lists `["a", "a"]` and `["a"]` — the same
set of names — digest differently and address different storage slots. -/
theorem c3_counterexample :
    makeTablesKey ["a", "a"] ≠ makeTablesKey ["a"] ∧
    valueKey true false (encode "k") (some (makeTablesKey ["a", "a"])) ≠
      valueKey true false (encode "k") (some (makeTablesKey ["a"])) := by decide

/-- Claim C3 amended: the digest is invariant under reordering of the
caller-supplied table list (equal multisets give equal digests, so store
and lookup with permuted lists address the same storage slot), but
duplicates are not deduplicated. -/
theorem c3_amended (l1 l2 : List String) (h : l1.Perm l2) :
    makeTablesKey l1 = makeTablesKey l2 ∧
    ∀ (isTag : Bool) (keyEnc : String),
      valueKey true isTag keyEnc (some (makeTablesKey l1)) =
        valueKey true isTag keyEnc (some (makeTablesKey l2)) := by
  have hmk : makeTablesKey l1 = makeTablesKey l2 := by
    unfold makeTablesKey
    by_cases h1 : l1 = []
    · subst h1
      rw [List.nil_perm] at h
      subst h
      rfl
    · have h2 : l2 ≠ [] := by
        intro he
        subst he
        rw [List.perm_nil] at h
        exact h1 h
      rw [if_neg h1, if_neg h2, sortStrings_eq_of_perm (h.map encode)]
  exact ⟨hmk, fun isTag keyEnc => by rw [hmk]⟩

/-- Witness for the C3 amendment at the spec's own example `{a,b}`:
storing with `["a","b"]` and looking up with `["b","a"]` uses one digest. -/
theorem c3_witness :
    makeTablesKey ["a", "b"] = makeTablesKey ["b", "a"] ∧
    valueKey true false (encode "k") (some (makeTablesKey ["a", "b"])) =
      valueKey true false (encode "k") (some (makeTablesKey ["b", "a"])) := by
  have h := c3_amended ["a", "b"] ["b", "a"] (List.Perm.swap "b" "a" [])
  exact ⟨h.1, h.2 false (encode "k")⟩

/-! ## Claim C6: TTL priority resolution -/

/-- The first TTL value of a config, following the words of the
specification: the first field present in the priority order relative-ms
(`px`), relative-s (`ex`), absolute-ms (`pxat`), absolute-s (`exat`);
`none` when no TTL field is present.  Stated from the spec for the
refinement comparison against `toExpiresAt`. -/
def specFirstTtl (now : Int) (c : Option CacheConfig) : Option Int :=
  match c with
  | none => none
  | some cfg =>
    match cfg.px with
    | some px => some (now + px)
    | none =>
      match cfg.ex with
      | some ex => some (now + ex * 1000)
      | none =>
        match cfg.pxat with
        | some pxat => some pxat
        | none =>
          match cfg.exat with
          | some exat => some (exat * 1000)
          | none => none

/-- The resolved expiry following the words of the specification: the
request config's first TTL field, else the default config's, else
`now + 1000`. -/
def specResolvedExpiry (now : Int) (request dflt : Option CacheConfig) : Int :=
  match specFirstTtl now request with
  | some e => e
  | none =>
    match specFirstTtl now dflt with
    | some e => e
    | none => now + 1000

theorem ttlFromSource_spec (now : Int) (cfg : CacheConfig)
    (h : cfg.ex.isSome ∨ cfg.px.isSome ∨ cfg.exat.isSome ∨ cfg.pxat.isSome) :
    specFirstTtl now (some cfg) = some (ttlFromSource now cfg) := by
  obtain ⟨ex, px, exat, pxat, kt⟩ := cfg
  rcases px with _ | px <;> rcases ex with _ | ex <;> rcases pxat with _ | pxat <;>
    rcases exat with _ | exat <;> simp_all [specFirstTtl, ttlFromSource]

theorem pickConfigWithTtl_none (c : Option CacheConfig) (now : Int)
    (h : pickConfigWithTtl c = none) : specFirstTtl now c = none := by
  cases c with
  | none => rfl
  | some cfg =>
    obtain ⟨ex, px, exat, pxat, kt⟩ := cfg
    rcases px with _ | px <;> rcases ex with _ | ex <;> rcases pxat with _ | pxat <;>
      rcases exat with _ | exat <;> simp_all [pickConfigWithTtl, specFirstTtl]

theorem pickConfigWithTtl_eq_some {c : Option CacheConfig} {x : CacheConfig}
    (h : pickConfigWithTtl c = some x) :
    c = some x ∧ (x.ex.isSome ∨ x.px.isSome ∨ x.exat.isSome ∨ x.pxat.isSome) := by
  cases c with
  | none => simp [pickConfigWithTtl] at h
  | some cfg =>
    have h2 : (if (cfg.ex.isSome || cfg.px.isSome || cfg.exat.isSome || cfg.pxat.isSome) = true
        then some cfg else none) = some x := h
    split_ifs at h2 with hc
    · cases h2
      refine ⟨rfl, ?_⟩
      simp only [Bool.or_eq_true] at hc
      tauto

/-- Claim C6: without an applicable `keepTtl`, the resolved expiry is the
first TTL field present in the request config in the priority order
relative-ms, relative-s, absolute-ms, absolute-s; with none there, the
default config is consulted with the same priority; with none anywhere,
the expiry is `now + 1000`. -/
theorem c6_ttl_priority (now : Int) (config dflt : Option CacheConfig)
    (existing : Option Int) (h : keepTtlGuard now config existing = false) :
    toExpiresAt now config dflt existing = some (specResolvedExpiry now config dflt) := by
  unfold toExpiresAt
  rw [h]
  simp only [Bool.false_eq_true, if_false]
  cases hc : pickConfigWithTtl config with
  | some x =>
    obtain ⟨hcs, hfields⟩ := pickConfigWithTtl_eq_some hc
    subst hcs
    unfold specResolvedExpiry
    rw [ttlFromSource_spec now x hfields]
    simp [Option.orElse]
  | none =>
    cases hd : pickConfigWithTtl dflt with
    | some y =>
      obtain ⟨hds, hfields⟩ := pickConfigWithTtl_eq_some hd
      subst hds
      unfold specResolvedExpiry
      rw [pickConfigWithTtl_none _ now hc, ttlFromSource_spec now y hfields]
      simp [Option.orElse]
    | none =>
      unfold specResolvedExpiry
      rw [pickConfigWithTtl_none _ now hc, pickConfigWithTtl_none _ now hd]
      simp [Option.orElse]

/-- Witness for C6 at a concrete input: a request with only `px = 5` at
`now = 0` resolves to expiry `5`. -/
theorem c6_witness :
    keepTtlGuard 0 (some { px := some 5 }) none = false ∧
    toExpiresAt 0 (some { px := some 5 }) none none = some 5 := by
  constructor
  · decide
  · rw [c6_ttl_priority 0 (some { px := some 5 }) none none (by decide)]
    decide

/-! ## Claim C8: strict index-key parsing -/

/-- Claim C8: the index-record parser accepts a key exactly when it splits
at `":"` into five parts with the fixed `__CTS__` namespace first, a known
kind tag, and nonempty table, digest and fingerprint parts; and during a
table-invalidation sweep an enumerated key that fails the parse
contributes nothing to the reconstructed value keys. -/
theorem c8_parse_strict (k : String) :
    ((parseIndexKey k).isSome = true ↔
      ∃ t d kd f, splitColon k = ["__CTS__", t, d, kd, f] ∧
        t ≠ "" ∧ d ≠ "" ∧ f ≠ "" ∧ (kd = "q" ∨ kd = "t")) ∧
    (parseIndexKey k = none → ∀ ks, collectValueKeys (k :: ks) = collectValueKeys ks) := by
  constructor
  · constructor
    · intro h
      unfold parseIndexKey at h
      split at h
      case h_2 => simp at h
      case h_1 p0 t d kd f hsp =>
        split_ifs at h with h1 h2 h3 h4 h5 h6
        · simp at h
        · simp at h
        · simp at h
        · simp at h
        · rw [not_not.mp h1] at hsp
          exact ⟨t, d, kd, f, hsp, h2, h3, h4, Or.inl h5⟩
        · rw [not_not.mp h1] at hsp
          exact ⟨t, d, kd, f, hsp, h2, h3, h4, Or.inr h6⟩
        · simp at h
    · intro ⟨t, d, kd, f, hsp, ht, hd2, hf, hkd⟩
      unfold parseIndexKey
      rw [hsp]
      rcases hkd with h | h <;> subst h <;> simp [ht, hd2, hf]
  · intro hn ks
    simp [collectValueKeys, List.filterMap_cons, hn]

/-- Witness for C8 at concrete keys: a well-formed index key parses, and a
malformed enumeration result is skipped by the sweep's reconstruction. -/
theorem c8_witness :
    (parseIndexKey "__CTS__:a:a,b:q:k").isSome = true ∧
    collectValueKeys ["garbage", "__CTS__:a:a,b:q:k"] =
      collectValueKeys ["__CTS__:a:a,b:q:k"] := by
  constructor
  · exact (c8_parse_strict "__CTS__:a:a,b:q:k").1.mpr
      ⟨"a", "a,b", "q", "k", by decide, by decide, by decide, by decide, Or.inl rfl⟩
  · exact (c8_parse_strict "garbage").2 (by decide) _

/-! ## Claim C10: tag lookup without a tag-map record -/

/-- Claim C10: a tag lookup whose tag-map record is absent returns a miss
immediately and leaves the storage untouched — the entry store is never
consulted, so a tag entry whose tag-map record was removed is unreachable
through `get` even if its value record still exists. -/
theorem c10_tag_miss_without_map {V : Type} (s : Storage V) (key : String)
    (tables : List String) (hint : Option Bool) (now : Int)
    (h : getItem s (tagMapKey (encode key)) = none) :
    get s key tables true hint now = some (none, s) := by
  unfold get
  rw [if_pos rfl, h]
  rfl

/-- Witness for C10: a storage holding only the tag entry's value record
(tag map absent) still yields a miss and is left unchanged. -/
theorem c10_witness :
    get [((valueKey false true (encode "g") none : String),
        StVal.entry ({ value := 5 } : CacheEntry Nat))] "g" [] true none 0 =
      some (none, [(valueKey false true (encode "g") none,
        StVal.entry ({ value := 5 } : CacheEntry Nat))]) :=
  c10_tag_miss_without_map _ "g" [] none 0 (by decide)

/-! ## Helper facts about `dropEntry` -/

theorem foldl_removeItem_eq_removeAll {α V : Type} (l : List α) (s : Storage V)
    (f : α → String) :
    l.foldl (fun st x => removeItem st (f x)) s = removeAll s (l.map f) := by
  induction l generalizing s with
  | nil => rfl
  | cons a rest ih =>
    show rest.foldl (fun st x => removeItem st (f x)) (removeItem s (f a)) =
      removeAll (removeItem s (f a)) (rest.map f)
    exact ih _

theorem dropEntryTables_fallback {V : Type} (au isTag rmMap : Bool) (keyEnc : String)
    (tkOpt : Option String) (entryOpt : Option (CacheEntry V)) (fb : List String) :
    dropEntryTables ⟨au, isTag, keyEnc, tkOpt, entryOpt, some fb, rmMap⟩ =
      some ((entryOpt.bind CacheEntry.tables).getD fb) := by
  unfold dropEntryTables
  cases h : entryOpt.bind CacheEntry.tables <;> simp [h]

/-- What `dropEntry` leaves behind for the parameter shapes the facade
builds (fallback tables always supplied, `tablesKey` present exactly under
auto-invalidation): the call succeeds, the value record is gone, and with
auto-invalidation and a nonempty digest every index record derived from
the entry's (or fallback) table list is gone. -/
theorem dropEntry_spec {V : Type} (s : Storage V) (au isTag rmMap : Bool)
    (keyEnc mk : String) (entryOpt : Option (CacheEntry V)) (fb : List String) :
    ∃ s2,
      dropEntry ⟨au, isTag, keyEnc, (if au = true then some mk else none), entryOpt,
        some fb, rmMap⟩ s = some s2 ∧
      getItem s2 (valueKey au isTag keyEnc (if au = true then some mk else none)) = none ∧
      (au = true → mk ≠ "" → ∀ tb ∈ (entryOpt.bind CacheEntry.tables).getD fb,
        getItem s2 (indexKey tb mk isTag keyEnc) = none) := by
  have hts := dropEntryTables_fallback (V := V) au isTag rmMap keyEnc
    (if au = true then some mk else none) entryOpt fb
  unfold dropEntry
  rw [hts]
  cases au with
  | false =>
    simp only [Bool.false_eq_true, if_false, ite_false]
    refine ⟨_, ⟨rfl, ?_, ?_⟩⟩
    · by_cases hm : (isTag && rmMap) = true
      · rw [if_pos hm, getItem_removeItem_ne _ _ _
          (fun he => tagMapKey_ne_valueKey keyEnc false isTag keyEnc none he.symm),
          getItem_removeItem_self]
      · rw [if_neg hm, getItem_removeItem_self]
    · intro h
      cases h
  | true =>
    simp only [if_true, Option.getD_some]
    by_cases hg : ((entryOpt.bind CacheEntry.tables).getD fb) = [] ∨ mk = ""
    · rw [if_pos (by rcases hg with hg | hg <;> simp [hg])]
      refine ⟨_, ⟨rfl, ?_, ?_⟩⟩
      · by_cases hm : (isTag && rmMap) = true
        · rw [if_pos hm, getItem_removeItem_ne _ _ _
            (fun he => tagMapKey_ne_valueKey keyEnc true isTag keyEnc (some mk) he.symm),
            getItem_removeItem_self]
        · rw [if_neg hm, getItem_removeItem_self]
      · intro _ hmk tb htb
        rcases hg with hg | hg
        · rw [hg] at htb
          cases htb
        · exact absurd hg hmk
    · push_neg at hg
      rw [if_neg (by simp [hg.1, hg.2])]
      rw [foldl_removeItem_eq_removeAll]
      refine ⟨_, ⟨rfl, ?_, ?_⟩⟩
      · rw [getItem_removeAll_not_mem]
        · by_cases hm : (isTag && rmMap) = true
          · rw [if_pos hm, getItem_removeItem_ne _ _ _
              (fun he => tagMapKey_ne_valueKey keyEnc true isTag keyEnc (some mk) he.symm),
              getItem_removeItem_self]
          · rw [if_neg hm, getItem_removeItem_self]
        · intro hmem
          obtain ⟨tb, _, habs⟩ := List.mem_map.mp hmem
          exact indexKey_ne_valueKey tb mk isTag keyEnc true isTag keyEnc (some mk) habs
      · intro _ _ tb htb
        exact getItem_removeAll_mem _ _ _ (List.mem_map.mpr ⟨tb, htb, rfl⟩)

/-! ## Claim C7: expired lookups are cleaned up, absent expiry never expires -/

/-- Claim C7: a lookup — query or tag — that finds an entry whose
`expiresAt` is present and `<= now` returns a miss and deletes the entry's
value record together with its index records (under auto-invalidation with
a nonempty digest); an entry with absent `expiresAt` is never expired. -/
theorem c7_expired_lookup {V : Type} :
    (∀ (s : Storage V) (key : String) (tables : List String) (hint : Option Bool)
        (now t : Int) (e : CacheEntry V),
      getItem s (valueKey (hint.getD (autoFlag tables)) false (encode key)
        (if (hint.getD (autoFlag tables)) = true then some (makeTablesKey tables)
         else none)) = some (StVal.entry e) →
      e.expiresAt = some t → t ≤ now →
      ∃ s2, get s key tables false hint now = some (none, s2) ∧
        getItem s2 (valueKey (hint.getD (autoFlag tables)) false (encode key)
          (if (hint.getD (autoFlag tables)) = true then some (makeTablesKey tables)
           else none)) = none ∧
        (hint.getD (autoFlag tables) = true → makeTablesKey tables ≠ "" →
          ∀ tb ∈ e.tables.getD tables,
            getItem s2 (indexKey tb (makeTablesKey tables) false (encode key)) = none)) ∧
    (∀ (s : Storage V) (key : String) (tables : List String) (hint : Option Bool)
        (now t : Int) (e : CacheEntry V) (mv : String) (fbts : List String),
      asStr (getItem s (tagMapKey (encode key))) = some mv → mv ≠ "" →
      getItem s (valueKey (mv != "NAI") true (encode key)
        (if (mv != "NAI") = true then some mv else none)) = some (StVal.entry e) →
      e.expiresAt = some t → t ≤ now →
      (match (if (mv != "NAI") = true then some mv else none) with
       | some tk => if tk ≠ "" then decodeTablesKey (some tk) else some []
       | none => some []) = some fbts →
      ∃ s2, get s key tables true hint now = some (none, s2) ∧
        getItem s2 (valueKey (mv != "NAI") true (encode key)
          (if (mv != "NAI") = true then some mv else none)) = none ∧
        ((mv != "NAI") = true → mv ≠ "" →
          ∀ tb ∈ e.tables.getD fbts,
            getItem s2 (indexKey tb mv true (encode key)) = none)) ∧
    (∀ (e' : CacheEntry V) (now' : Int), e'.expiresAt = none →
      isExpired e' now' = false) := by
  refine ⟨?_, ?_, fun e' now' he' => by simp [isExpired, he']⟩
  · intro s key tables hint now t e hent hexp hle
    have hexp2 : isExpired e now = true := by
      simp only [isExpired, hexp]
      exact decide_eq_true hle
    have hget : get s key tables false hint now =
        (dropEntry ⟨hint.getD (autoFlag tables), false, encode key,
          (if (hint.getD (autoFlag tables)) = true then some (makeTablesKey tables)
           else none),
          some e, some tables, false⟩ s).map (fun s2 => (none, s2)) := by
      unfold get
      simp only [Bool.false_eq_true, if_false, hent, asEntry, hexp2, if_true]
    obtain ⟨s2, hdrop, hval, hidx⟩ := dropEntry_spec s (hint.getD (autoFlag tables))
      false false (encode key) (makeTablesKey tables) (some e) tables
    refine ⟨s2, ?_, hval, ?_⟩
    · rw [hget, hdrop]
      rfl
    · intro hau hmk tb htb
      exact hidx hau hmk tb htb
  · intro s key tables hint now t e mv fbts hmap hmv hent hexp hle hdec
    have hexp2 : isExpired e now = true := by
      simp only [isExpired, hexp]
      exact decide_eq_true hle
    have hget : get s key tables true hint now =
        (dropEntry ⟨(mv != "NAI"), true, encode key,
          (if (mv != "NAI") = true then some mv else none),
          some e, some fbts, true⟩ s).map (fun s2 => (none, s2)) := by
      unfold get
      simp only [eq_self_iff_true, if_true, hmap]
      rw [if_neg hmv]
      simp only [hent, asEntry, hexp2, if_true, eq_self_iff_true, hdec]
    obtain ⟨s2, hdrop, hval, hidx⟩ := dropEntry_spec s (mv != "NAI") true true
      (encode key) mv (some e) fbts
    refine ⟨s2, ?_, hval, ?_⟩
    · rw [hget, hdrop]
      rfl
    · intro hau hmk tb htb
      exact hidx hau hmk tb htb

/-- Witness for C7: both paths at concrete inputs — an expired
auto-invalidated query entry (expiry 10, read at 50) and an expired
table-dependent tag entry are each dropped and reported as misses. -/
theorem c7_witness :
    (∃ s2, get [((valueKey true false (encode "k") (some (makeTablesKey ["a"])) : String),
        StVal.entry ({ value := 7, expiresAt := some 10, tables := some ["a"] } :
          CacheEntry Nat))] "k" ["a"] false none 50 = some (none, s2) ∧
      getItem s2 (valueKey true false (encode "k") (some (makeTablesKey ["a"]))) = none ∧
      getItem s2 (indexKey "a" (makeTablesKey ["a"]) false (encode "k")) = none) ∧
    (∃ s2, get [((tagMapKey (encode "g") : String), (StVal.str "a" : StVal Nat)),
        (valueKey ("a" != "NAI") true (encode "g")
          (if ("a" != "NAI") = true then some "a" else none),
          StVal.entry ({ value := 7, expiresAt := some 10, tables := some ["a"] } :
            CacheEntry Nat))] "g" [] true none 50 = some (none, s2) ∧
      getItem s2 (valueKey ("a" != "NAI") true (encode "g")
        (if ("a" != "NAI") = true then some "a" else none)) = none ∧
      getItem s2 (indexKey "a" "a" true (encode "g")) = none) := by
  constructor
  · have h := (c7_expired_lookup (V := Nat)).1
      [((valueKey true false (encode "k") (some (makeTablesKey ["a"]))),
        StVal.entry { value := 7, expiresAt := some 10, tables := some ["a"] })]
      "k" ["a"] none 50 10 { value := 7, expiresAt := some 10, tables := some ["a"] }
      (by decide) rfl (by decide)
    obtain ⟨s2, hg, hv, hi⟩ := h
    exact ⟨s2, hg, hv, hi rfl (by decide) "a" (by decide)⟩
  · have h := (c7_expired_lookup (V := Nat)).2.1
      [((tagMapKey (encode "g")), (StVal.str "a" : StVal Nat)),
        (valueKey ("a" != "NAI") true (encode "g")
          (if ("a" != "NAI") = true then some "a" else none),
          StVal.entry { value := 7, expiresAt := some 10, tables := some ["a"] })]
      "g" [] none 50 10 { value := 7, expiresAt := some 10, tables := some ["a"] }
      "a" ["a"] (by decide) (by decide) (by decide) rfl (by decide) (by decide)
    obtain ⟨s2, hg, hv, hi⟩ := h
    exact ⟨s2, hg, hv, hi (by decide) (by decide) "a" (by decide)⟩

/-! ## Claim C4: dead-on-arrival stores clean up instead of persisting -/

/-- Claim C4: when the resolved expiry of a store is already `<= now`, the
entry is not persisted; `put` runs the same `dropEntry` cleanup as an
expired read, leaving no value record and (under auto-invalidation with a
nonempty digest) no index records for that key. -/
theorem c4_dead_on_arrival {V : Type} (s : Storage V) (key : String) (v : V)
    (tables : List String) (isTag : Bool) (config dflt : Option CacheConfig)
    (now ea : Int)
    (hea : toExpiresAt now config dflt
      ((if (config.bind CacheConfig.keepTtl) = some true then
          asEntry (getItem s (valueKey (autoFlag tables) isTag (encode key)
            (if autoFlag tables = true then some (makeTablesKey tables) else none)))
        else none).bind CacheEntry.expiresAt) = some ea)
    (hle : ea ≤ now) :
    put s key v tables isTag config dflt now =
      dropEntry ⟨autoFlag tables, isTag, encode key,
        (if autoFlag tables = true then some (makeTablesKey tables) else none),
        none, some tables, false⟩ s ∧
    ∃ s2, put s key v tables isTag config dflt now = some s2 ∧
      getItem s2 (valueKey (autoFlag tables) isTag (encode key)
        (if autoFlag tables = true then some (makeTablesKey tables) else none)) = none ∧
      (autoFlag tables = true → makeTablesKey tables ≠ "" →
        ∀ tb ∈ tables,
          getItem s2 (indexKey tb (makeTablesKey tables) isTag (encode key)) = none) := by
  have hdead : (decide (ea ≤ now)) = true := decide_eq_true hle
  have hput : put s key v tables isTag config dflt now =
      dropEntry ⟨autoFlag tables, isTag, encode key,
        (if autoFlag tables = true then some (makeTablesKey tables) else none),
        none, some tables, false⟩ s := by
    unfold put
    simp only [hea, hdead, if_true]
  refine ⟨hput, ?_⟩
  obtain ⟨s2, hdrop, hval, hidx⟩ := dropEntry_spec s (autoFlag tables) isTag false
    (encode key) (makeTablesKey tables) none tables
  exact ⟨s2, by rw [hput]; exact hdrop, hval, fun hau hmk tb htb => hidx hau hmk tb htb⟩

/-- Witness for C4: storing with `px = -5` at `now = 100` resolves expiry
95 and persists nothing. -/
theorem c4_witness :
    ∃ s2, put ([] : Storage Nat) "k" 7 ["a"] false (some { px := some (-5) }) none 100 =
      some s2 ∧
      getItem s2 (valueKey (autoFlag ["a"]) false (encode "k")
        (if autoFlag ["a"] = true then some (makeTablesKey ["a"]) else none)) = none := by
  have h := c4_dead_on_arrival ([] : Storage Nat) "k" 7 ["a"] false
    (some { px := some (-5) }) none 100 95 (by decide) (by decide)
  obtain ⟨_, s2, hp, hv, _⟩ := h
  exact ⟨s2, hp, hv⟩

/-! ## Claim C5: `keepTtl` preserves a still-future expiry -/

/-- Claim C5: a store with `keepTtl` set, finding an existing entry whose
`expiresAt` is strictly in the future, resolves exactly that `expiresAt`
(every other TTL field of the request is ignored) and persists the new
value with the old expiry. -/
theorem c5_keepTtl_preserved {V : Type} (s : Storage V) (key : String) (v : V)
    (tables : List String) (isTag : Bool) (cfg : CacheConfig) (dflt : Option CacheConfig)
    (now ea : Int) (e0 : CacheEntry V)
    (hk : cfg.keepTtl = some true) (hnow : 0 ≤ now) (hfut : now < ea)
    (hexist : getItem s (valueKey (autoFlag tables) isTag (encode key)
      (if autoFlag tables = true then some (makeTablesKey tables) else none)) =
      some (StVal.entry e0))
    (he0 : e0.expiresAt = some ea) :
    toExpiresAt now (some cfg) dflt (some ea) = some ea ∧
    ∃ s2, put s key v tables isTag (some cfg) dflt now = some s2 ∧
      getItem s2 (valueKey (autoFlag tables) isTag (encode key)
        (if autoFlag tables = true then some (makeTablesKey tables) else none)) =
        some (StVal.entry ⟨v, some ea,
          if autoFlag tables = true then some tables else none⟩) := by
  have hguard : keepTtlGuard now (some cfg) (some ea) = true := by
    simp only [keepTtlGuard, Option.some_bind, hk, beq_self_eq_true, Bool.true_and,
      Bool.and_eq_true, bne_iff_ne, ne_eq, decide_eq_true_eq]
    exact ⟨by omega, hfut⟩
  have hta : toExpiresAt now (some cfg) dflt (some ea) = some ea := by
    unfold toExpiresAt
    rw [hguard]
    rfl
  have hkt : ((some cfg).bind CacheConfig.keepTtl) = some true := hk
  refine ⟨hta, ?_⟩
  have hdead : (decide (ea ≤ now)) = false := decide_eq_false (by omega)
  have hput : put s key v tables isTag (some cfg) dflt now =
      some (setMany s
        (((valueKey (autoFlag tables) isTag (encode key)
            (if autoFlag tables = true then some (makeTablesKey tables) else none)),
          StVal.entry ⟨v, some ea,
            if autoFlag tables = true then some tables else none⟩) ::
          (if autoFlag tables = true ∧
              ((if autoFlag tables = true then some (makeTablesKey tables) else none).getD ""
                ≠ "") then
            tables.map (fun table =>
              (indexKey table
                ((if autoFlag tables = true then some (makeTablesKey tables)
                  else none).getD "") isTag (encode key),
                StVal.num ((some ea).getD 1))) ++
            (if isTag then
              [(tagMapKey (encode key),
                StVal.str ((if autoFlag tables = true then some (makeTablesKey tables)
                  else none).getD ""))]
             else [])
          else if isTag then [(tagMapKey (encode key), StVal.str "NAI")] else []))) := by
    unfold put
    simp only [hkt, eq_self_iff_true, if_true, hexist, asEntry, Option.some_bind, he0,
      hta, hdead, Bool.false_eq_true, if_false]
  refine ⟨_, hput, ?_⟩
  rw [getItem_setMany_head]
  intro hmem
  rw [List.mem_map] at hmem
  obtain ⟨kv, hkv, hfst⟩ := hmem
  by_cases hau : autoFlag tables = true
  · rw [hau] at hkv
    simp only [eq_self_iff_true, if_true, true_and, Option.getD_some] at hkv
    split_ifs at hkv with h1 h2 h3
    · rcases List.mem_append.mp hkv with hkv2 | hkv2
      · obtain ⟨tb, _, rfl⟩ := List.mem_map.mp hkv2
        exact indexKey_ne_valueKey tb _ isTag (encode key) (autoFlag tables) isTag
          (encode key) _ hfst
      · rw [List.mem_singleton] at hkv2
        subst hkv2
        exact tagMapKey_ne_valueKey (encode key) (autoFlag tables) isTag (encode key)
          _ hfst
    · rcases List.mem_append.mp hkv with hkv2 | hkv2
      · obtain ⟨tb, _, rfl⟩ := List.mem_map.mp hkv2
        exact indexKey_ne_valueKey tb _ isTag (encode key) (autoFlag tables) isTag
          (encode key) _ hfst
      · cases hkv2
    · rw [List.mem_singleton] at hkv
      subst hkv
      exact tagMapKey_ne_valueKey (encode key) (autoFlag tables) isTag (encode key)
        _ hfst
    · cases hkv
  · rw [Bool.not_eq_true] at hau
    rw [hau] at hkv
    simp only [Bool.false_eq_true, false_and, if_false] at hkv
    split_ifs at hkv with h1
    · rw [List.mem_singleton] at hkv
      subst hkv
      exact tagMapKey_ne_valueKey (encode key) (autoFlag tables) isTag (encode key)
        _ hfst
    · cases hkv

/-- Witness for C5: re-storing value 2 with `keepTtl` and a shorter
`px = 10` at `now = 5` keeps the prior expiry 50. -/
theorem c5_witness :
    toExpiresAt 5 (some { px := some 10, keepTtl := some true }) none (some 50) = some 50 ∧
    ∃ s2, put [((valueKey (autoFlag ["a"]) false (encode "k")
        (if autoFlag ["a"] = true then some (makeTablesKey ["a"]) else none) : String),
        StVal.entry ({ value := 1, expiresAt := some 50, tables := some ["a"] } :
          CacheEntry Nat))]
      "k" 2 ["a"] false (some { px := some 10, keepTtl := some true }) none 5 = some s2 ∧
      getItem s2 (valueKey (autoFlag ["a"]) false (encode "k")
        (if autoFlag ["a"] = true then some (makeTablesKey ["a"]) else none)) =
        some (StVal.entry ⟨2, some 50,
          if autoFlag ["a"] = true then some ["a"] else none⟩) := by
  have h := c5_keepTtl_preserved
    [((valueKey (autoFlag ["a"]) false (encode "k")
        (if autoFlag ["a"] = true then some (makeTablesKey ["a"]) else none)),
      StVal.entry ({ value := 1, expiresAt := some 50, tables := some ["a"] } :
        CacheEntry Nat))]
    "k" 2 ["a"] false { px := some 10, keepTtl := some true } none 5 50
    { value := 1, expiresAt := some 50, tables := some ["a"] }
    rfl (by decide) (by decide) (by decide) rfl
  exact h

/-! ## Claim C1: table invalidation -/

/-- Claim C1 counterexample: after storing an entry dependent on
`{a, b}` and invalidating only table `a`, the entry's value record and its
`a`-index record are gone, but its index record keyed under `b` — a table
of the set that was not named in the mutation — survives as a dangling
record; the claim's "every index record of that entry" is false. -/
theorem c1_counterexample :
    getItem (invalidateTables ["a"] ((put ([] : Storage Nat) "k" 7 ["a", "b"] false
        none none 0).getD []))
      (indexKey "b" (makeTablesKey ["a", "b"]) false (encode "k")) =
      some (StVal.num 1000) ∧
    getItem (invalidateTables ["a"] ((put ([] : Storage Nat) "k" 7 ["a", "b"] false
        none none 0).getD []))
      (valueKey true false (encode "k") (some (makeTablesKey ["a", "b"]))) = none := by
  decide

theorem invalidateTables_eq {V : Type} (tables : List String) (s : Storage V)
    (hne : tables ≠ [])
    (hne2 : dedupFirst (tables.flatMap (fun table => getKeys s (indexTablePfx table))) ≠ []) :
    invalidateTables tables s =
      removeAll s
        (dedupFirst (tables.flatMap (fun table => getKeys s (indexTablePfx table))) ++
          dedupFirst (collectValueKeys (dedupFirst (tables.flatMap (fun table =>
            getKeys s (indexTablePfx table)))))) := by
  unfold invalidateTables
  rw [if_neg hne]
  simp only [hne2, if_false, ite_false]

/-- Claim C1 amended: invalidating a single table `t` of a stored entry's
dependent-table set — the entry may be a query entry or a tag entry —
deletes the entry's value record and the entry's index record keyed under
`t` (for nonempty table names and a nonempty fingerprint); index records
keyed under the other tables of the set are not removed by
`invalidateTables` and remain as dangling records. -/
theorem c1_amended {V : Type} (s : Storage V) (key : String) (v : V)
    (tables : List String) (isTag : Bool) (config dflt : Option CacheConfig)
    (now ea : Int) (t : String) (s1 : Storage V)
    (ht : t ∈ tables) (hne : ∀ tb ∈ tables, tb ≠ "") (hkey : key ≠ "")
    (hea : toExpiresAt now config dflt
      ((if (config.bind CacheConfig.keepTtl) = some true then
          asEntry (getItem s (valueKey (autoFlag tables) isTag (encode key)
            (if autoFlag tables = true then some (makeTablesKey tables) else none)))
        else none).bind CacheEntry.expiresAt) = some ea)
    (hlt : now < ea)
    (hput : put s key v tables isTag config dflt now = some s1) :
    getItem (invalidateTables [t] s1)
      (valueKey true isTag (encode key) (some (makeTablesKey tables))) = none ∧
    getItem (invalidateTables [t] s1)
      (indexKey t (makeTablesKey tables) isTag (encode key)) = none := by
  have htne : tables ≠ [] := List.ne_nil_of_mem ht
  have hau : autoFlag tables = true := by
    unfold autoFlag
    cases tables with
    | nil => exact absurd rfl htne
    | cons a l => rfl
  have hmk : makeTablesKey tables ≠ "" := makeTablesKey_ne_empty _ htne hne
  have hdead : (decide (ea ≤ now)) = false := decide_eq_false (by omega)
  rw [hau] at hea
  simp only [eq_self_iff_true, if_true] at hea
  have hputEq : put s key v tables isTag config dflt now =
      some (setMany s
        ((valueKey true isTag (encode key) (some (makeTablesKey tables)),
          StVal.entry ⟨v, some ea, some tables⟩) ::
          (tables.map (fun tb =>
            (indexKey tb (makeTablesKey tables) isTag (encode key), StVal.num ea)) ++
           (if isTag = true then
             [(tagMapKey (encode key), StVal.str (makeTablesKey tables))]
            else [])))) := by
    unfold put
    simp only [hau, eq_self_iff_true, if_true, Option.getD_some, hea, hdead,
      Bool.false_eq_true, if_false, hmk, ne_eq, not_false_iff, and_true, true_and]
  rw [hput] at hputEq
  have hs1 : s1 = setMany s
      ((valueKey true isTag (encode key) (some (makeTablesKey tables)),
        StVal.entry ⟨v, some ea, some tables⟩) ::
        (tables.map (fun tb =>
          (indexKey tb (makeTablesKey tables) isTag (encode key), StVal.num ea)) ++
         (if isTag = true then
           [(tagMapKey (encode key), StVal.str (makeTablesKey tables))]
          else []))) :=
    Option.some.inj hputEq
  have hikmem : indexKey t (makeTablesKey tables) isTag (encode key) ∈
      s1.map Prod.fst := by
    rw [hs1, mem_keys_iff_getItem_isSome]
    apply getItem_setMany_isSome_of_mem
    simp only [List.map_cons, List.map_append, List.map_map, List.mem_cons,
      List.mem_append]
    refine Or.inr (Or.inl ?_)
    rw [List.mem_map]
    exact ⟨t, ht, rfl⟩
  have hikkeys : indexKey t (makeTablesKey tables) isTag (encode key) ∈
      getKeys s1 (indexTablePfx t) :=
    (mem_getKeys_iff _ _ _).mpr
      ⟨hikmem, indexTablePfx_isPrefixOf_indexKey t (makeTablesKey tables) isTag (encode key)⟩
  have hikin : indexKey t (makeTablesKey tables) isTag (encode key) ∈
      dedupFirst ([t].flatMap (fun tb => getKeys s1 (indexTablePfx tb))) := by
    rw [mem_dedupFirst]
    simp only [List.flatMap_cons, List.flatMap_nil, List.append_nil]
    exact hikkeys
  have hparse : parseIndexKey (indexKey t (makeTablesKey tables) isTag (encode key)) =
      some ⟨encode t, makeTablesKey tables, isTag, encode key⟩ :=
    parseIndexKey_indexKey t (makeTablesKey tables) (encode key) isTag
      (encode_ne_empty t (hne t ht)) hmk (makeTablesKey_no_colon tables)
      (noColon_encode key) (encode_ne_empty key hkey)
  have hvkin : valueKey true isTag (encode key) (some (makeTablesKey tables)) ∈
      dedupFirst (collectValueKeys
        (dedupFirst ([t].flatMap (fun tb => getKeys s1 (indexTablePfx tb))))) := by
    rw [mem_dedupFirst]
    unfold collectValueKeys
    refine List.mem_map.mpr ⟨⟨encode t, makeTablesKey tables, isTag, encode key⟩, ?_, rfl⟩
    exact List.mem_filterMap.mpr
      ⟨indexKey t (makeTablesKey tables) isTag (encode key), hikin, hparse⟩
  rw [invalidateTables_eq [t] s1 (by simp)
    (List.ne_nil_of_mem hikin)]
  constructor
  · exact getItem_removeAll_mem _ _ _ (List.mem_append.mpr (Or.inr hvkin))
  · exact getItem_removeAll_mem _ _ _ (List.mem_append.mpr (Or.inl hikin))

/-- Witness for the C1 amendment at concrete stores: a query entry and a
tag entry, each on `{a, b}`, invalidated via table `a` alone. -/
theorem c1_witness :
    (∃ s1, put ([] : Storage Nat) "k" 7 ["a", "b"] false none none 0 = some s1 ∧
      getItem (invalidateTables ["a"] s1)
        (valueKey true false (encode "k") (some (makeTablesKey ["a", "b"]))) = none ∧
      getItem (invalidateTables ["a"] s1)
        (indexKey "a" (makeTablesKey ["a", "b"]) false (encode "k")) = none) ∧
    (∃ s1, put ([] : Storage Nat) "g" 7 ["a", "b"] true none none 0 = some s1 ∧
      getItem (invalidateTables ["a"] s1)
        (valueKey true true (encode "g") (some (makeTablesKey ["a", "b"]))) = none ∧
      getItem (invalidateTables ["a"] s1)
        (indexKey "a" (makeTablesKey ["a", "b"]) true (encode "g")) = none) := by
  constructor
  · have h := c1_amended ([] : Storage Nat) "k" 7 ["a", "b"] false none none 0 1000 "a"
      ((put ([] : Storage Nat) "k" 7 ["a", "b"] false none none 0).getD [])
      (by decide) (by decide) (by decide) (by decide) (by decide) (by decide)
    exact ⟨_, by decide, h.1, h.2⟩
  · have h := c1_amended ([] : Storage Nat) "g" 7 ["a", "b"] true none none 0 1000 "a"
      ((put ([] : Storage Nat) "g" 7 ["a", "b"] true none none 0).getD [])
      (by decide) (by decide) (by decide) (by decide) (by decide) (by decide)
    exact ⟨_, by decide, h.1, h.2⟩

end DrizzleUncache
